import Mathlib

/-!
# Update information of an AppImage: parsing and validation

A shallow embedding of `internal/helpers/updateinformation.go`.

Go strings are byte sequences; they are embedded as lists of byte values.
The functions of the Go standard library that the program calls
(`strings.Split`, `strings.HasSuffix`, `url.Parse`, `errors.New`,
`bytes.Index`) are embedded next to it, following the Go 1.21 sources of
`strings` and `net/url`, so that every definition can be evaluated on
concrete inputs. The files that `debug/elf` reads are an explicit state:
what each path opens as, and how many file handles are open.
-/

set_option autoImplicit false
set_option maxRecDepth 100000

/-- A Go `string`: an immutable sequence of bytes. -/
abbrev GoString := List Nat

/-- The UTF-8 encoding of one code point, as Go source literals are encoded. -/
def utf8EncodeRune (r : Nat) : List Nat :=
  if r < 0x80 then [r]
  else if r < 0x800 then [0xC0 + r / 64, 0x80 + r % 64]
  else if r < 0x10000 then [0xE0 + r / 4096, 0x80 + r / 64 % 64, 0x80 + r % 64]
  else [0xF0 + r / 262144, 0x80 + r / 4096 % 64, 0x80 + r / 64 % 64, 0x80 + r % 64]

/-- The bytes of a string literal. -/
def str (s : String) : GoString :=
  (s.toList.map (fun c => utf8EncodeRune c.toNat)).flatten

/-! ## Package `errors` -/

/-- A Go `error` made by `errors.New`: it carries its message. -/
structure GoError where
  msg : GoString
deriving DecidableEq, Repr

namespace errors

/-- Go `errors.New`. -/
def New (text : GoString) : GoError := ⟨text⟩

end errors

/-- Equality of Go results is decidable. -/
instance instDecidableEqExcept {ε α : Type} [DecidableEq ε] [DecidableEq α] :
    DecidableEq (Except ε α)
  | .ok a, .ok b => if h : a = b then isTrue (by rw [h]) else isFalse (fun e => h (by cases e; rfl))
  | .error a, .error b =>
    if h : a = b then isTrue (by rw [h]) else isFalse (fun e => h (by cases e; rfl))
  | .ok _, .error _ => isFalse (fun e => by cases e)
  | .error _, .ok _ => isFalse (fun e => by cases e)

/-! ## Package `strings` -/

namespace strings

/-- Go `strings.HasPrefix`: `len(s) >= len(prefix) && s[:len(prefix)] == prefix`. -/
def HasPrefix (s pre : GoString) : Bool :=
  decide (pre.length ≤ s.length) && decide (s.take pre.length = pre)

/-- Go `strings.HasSuffix`: `len(s) >= len(suffix) && s[len(s)-len(suffix):] == suffix`. -/
def HasSuffix (s suffix : GoString) : Bool :=
  decide (suffix.length ≤ s.length) && decide (s.drop (s.length - suffix.length) = suffix)

/-- Go `strings.Index`: the index of the first instance of `substr` in `s`, or `-1`. -/
def Index : GoString → GoString → Int
  | [], substr => if substr = [] then 0 else -1
  | b :: bs, substr =>
    if HasPrefix (b :: bs) substr then 0
    else
      let i := Index bs substr
      if i < 0 then -1 else i + 1

/-- Go `strings.LastIndex` for a one-byte `substr`: the index of the last
instance of the byte in `s`, or `-1`. -/
def LastIndexByte : GoString → Nat → Int
  | [], _ => -1
  | b :: bs, c =>
    let i := LastIndexByte bs c
    if 0 ≤ i then i + 1 else if b = c then 0 else -1

/-- Go `strings.Contains`: `Index(s, substr) >= 0`. -/
def Contains (s substr : GoString) : Bool := decide (0 ≤ Index s substr)

/-- Go `strings.Count` for a one-byte `substr`. -/
def CountByte (s : GoString) (c : Nat) : Nat := s.count c

/-- Go `strings.Cut`: slices `s` around the first instance of `sep`. -/
def Cut (s sep : GoString) : GoString × GoString × Bool :=
  let i := Index s sep
  if 0 ≤ i then (s.take i.toNat, s.drop (i.toNat + sep.length), true)
  else (s, [], false)

/-- Go `strings.Split` for a one-byte separator: the substrings of `s` between
the separators; one more than there are separators, so never empty. -/
def SplitByte : GoString → Nat → List GoString
  | [], _ => [[]]
  | b :: bs, sep =>
    if b = sep then [] :: SplitByte bs sep
    else
      match SplitByte bs sep with
      | [] => [[b]]
      | p :: ps => (b :: p) :: ps

/-- Go `strings.ToLower` on ASCII input (its fast path): maps `A`-`Z` to `a`-`z`. -/
def ToLower (s : GoString) : GoString :=
  s.map (fun c => if 65 ≤ c ∧ c ≤ 90 then c + 32 else c)

end strings

/-! ## Package `net/url` -/

namespace url

/-- The errors of `net/url`: `errors.New` messages, `EscapeError`,
`InvalidHostError` and the invalid-port error of `parseHost`. -/
inductive UrlError where
  | text (msg : String)
  | EscapeError (s : GoString)
  | InvalidHostError (s : GoString)
  | invalidPort (colonPort : GoString)
deriving DecidableEq, Repr

/-- The `encoding` modes of `net/url`. -/
inductive encoding where
  | encodePath
  | encodePathSegment
  | encodeHost
  | encodeZone
  | encodeUserPassword
  | encodeQueryComponent
  | encodeFragment
deriving DecidableEq, Repr

/-- Go `url.Userinfo`. -/
structure Userinfo where
  username : GoString
  password : GoString
  passwordSet : Bool
deriving DecidableEq, Repr

/-- Go `url.URL`, without the encoding hints `RawPath` and `RawFragment`,
which `Parse` derives from the other fields and the program never reads. -/
structure URL where
  Scheme : GoString := []
  Opaque : GoString := []
  User : Option Userinfo := none
  Host : GoString := []
  Path : GoString := []
  OmitHost : Bool := false
  ForceQuery : Bool := false
  RawQuery : GoString := []
  Fragment : GoString := []
deriving DecidableEq, Repr

/-- Go `ishex`. -/
def ishex (c : Nat) : Bool :=
  (48 ≤ c && c ≤ 57) || (97 ≤ c && c ≤ 102) || (65 ≤ c && c ≤ 70)

/-- Go `unhex`. -/
def unhex (c : Nat) : Nat :=
  if 48 ≤ c ∧ c ≤ 57 then c - 48
  else if 97 ≤ c ∧ c ≤ 102 then c - 97 + 10
  else if 65 ≤ c ∧ c ≤ 70 then c - 65 + 10
  else 0

/-- Go `shouldEscape`: whether byte `c` must be escaped in the given mode. -/
def shouldEscape (c : Nat) (mode : encoding) : Bool :=
  -- unreserved characters (alphanum)
  if (97 ≤ c ∧ c ≤ 122) ∨ (65 ≤ c ∧ c ≤ 90) ∨ (48 ≤ c ∧ c ≤ 57) then false
  else if (mode = .encodeHost ∨ mode = .encodeZone) ∧
      c ∈ [33, 36, 38, 39, 40, 41, 42, 43, 44, 59, 61, 58, 91, 93, 60, 62, 34] then false
  -- unreserved characters (mark): - _ . ~
  else if c ∈ [45, 95, 46, 126] then false
  -- reserved characters: $ & + , / : ; = ? @
  else if c ∈ [36, 38, 43, 44, 47, 58, 59, 61, 63, 64] ∧
      mode ∈ [.encodePath, .encodePathSegment, .encodeUserPassword,
        .encodeQueryComponent, .encodeFragment] then
    match mode with
    | .encodePath => decide (c = 63)
    | .encodePathSegment => decide (c = 47 ∨ c = 59 ∨ c = 44 ∨ c = 63)
    | .encodeUserPassword => decide (c = 64 ∨ c = 47 ∨ c = 63 ∨ c = 58)
    | .encodeQueryComponent => true
    | _ => false
  -- sub-delims allowed in a fragment: ! ( ) *
  else if mode = .encodeFragment ∧ c ∈ [33, 40, 41, 42] then false
  else true

/-- The first loop of Go `unescape`: counts the `%` escapes and checks that
they are well formed; `n` and `hasPlus` are the loop's variables. -/
def unescapeCheck (mode : encoding) : GoString → Nat → Bool → Except UrlError (Nat × Bool)
  | [], n, hasPlus => .ok (n, hasPlus)
  | 37 :: a :: b :: rest, n, hasPlus =>
    if !ishex a || !ishex b then .error (.EscapeError [37, a, b])
    else if mode = .encodeHost ∧ unhex a < 8 ∧ [37, a, b] ≠ [37, 50, 53] then
      .error (.EscapeError [37, a, b])
    else if mode = .encodeZone ∧ [37, a, b] ≠ [37, 50, 53] ∧ unhex a * 16 + unhex b ≠ 32 ∧
        shouldEscape (unhex a * 16 + unhex b) .encodeHost then
      .error (.EscapeError [37, a, b])
    else unescapeCheck mode rest (n + 1) hasPlus
  | 37 :: rest, _, _ => .error (.EscapeError (37 :: rest))
  | 43 :: rest, n, _ => unescapeCheck mode rest n (decide (mode = .encodeQueryComponent))
  | c :: rest, n, hasPlus =>
    if (mode = .encodeHost ∨ mode = .encodeZone) ∧ c < 0x80 ∧ shouldEscape c .encodeHost then
      .error (.InvalidHostError [c])
    else unescapeCheck mode rest n hasPlus

/-- The second loop of Go `unescape`: replaces each `%XX` by the byte it denotes. -/
def unescapeBuild (mode : encoding) : GoString → GoString
  | [] => []
  | 37 :: a :: b :: rest => (unhex a * 16 + unhex b) :: unescapeBuild mode rest
  | 43 :: rest => (if mode = .encodeQueryComponent then 32 else 43) :: unescapeBuild mode rest
  | c :: rest => c :: unescapeBuild mode rest

/-- Go `unescape`. -/
def unescape (s : GoString) (mode : encoding) : Except UrlError GoString :=
  match unescapeCheck mode s 0 false with
  | .error e => .error e
  | .ok (n, hasPlus) => if n = 0 ∧ hasPlus = false then .ok s else .ok (unescapeBuild mode s)

/-- The loop of Go `getScheme` at index `i`, `rest` being `rawURL[i:]`. -/
def getSchemeLoop (rawURL : GoString) : Nat → GoString → Except UrlError (GoString × GoString)
  | _, [] => .ok ([], rawURL)
  | i, c :: rest =>
    if (97 ≤ c ∧ c ≤ 122) ∨ (65 ≤ c ∧ c ≤ 90) then getSchemeLoop rawURL (i + 1) rest
    else if (48 ≤ c ∧ c ≤ 57) ∨ c = 43 ∨ c = 45 ∨ c = 46 then
      if i = 0 then .ok ([], rawURL) else getSchemeLoop rawURL (i + 1) rest
    else if c = 58 then
      if i = 0 then .error (.text "missing protocol scheme")
      else .ok (rawURL.take i, rawURL.drop (i + 1))
    else .ok ([], rawURL)

/-- Go `getScheme`: splits `scheme:path`, the scheme possibly empty. -/
def getScheme (rawURL : GoString) : Except UrlError (GoString × GoString) :=
  getSchemeLoop rawURL 0 rawURL

/-- Go `stringContainsCTLByte`. -/
def stringContainsCTLByte (s : GoString) : Bool :=
  s.any (fun b => decide (b < 32) || decide (b = 0x7f))

/-- Go `validOptionalPort`: `port` is empty or `:` followed by digits. -/
def validOptionalPort (port : GoString) : Bool :=
  match port with
  | [] => true
  | c :: ds => decide (c = 58) && ds.all (fun b => decide (48 ≤ b) && decide (b ≤ 57))

/-- Go `validUserinfo`. It ranges over runes: every byte of a rune outside
ASCII is at least `0x80`, and no such rune is allowed. -/
def validUserinfo (s : GoString) : Bool :=
  s.all (fun r =>
    decide (65 ≤ r ∧ r ≤ 90) || decide (97 ≤ r ∧ r ≤ 122) || decide (48 ≤ r ∧ r ≤ 57) ||
    decide (r ∈ [45, 46, 95, 58, 126, 33, 36, 38, 39, 40, 41, 42, 43, 44, 59, 61, 37, 64]))

/-- Go `parseHost`, as in Go 1.21: the port is checked after the last colon
and the text between brackets is not checked to be an IP address. Later
releases reject more hosts, such as `a:b:80` and `[notanip]`. -/
def parseHost (host : GoString) : Except UrlError GoString :=
  if strings.HasPrefix host [91] then
    -- an IP-literal, as in "[fe80::1]:80"
    let i := strings.LastIndexByte host 93
    if i < 0 then .error (.text "missing ']' in host")
    else
      let colonPort := host.drop (i.toNat + 1)
      if !validOptionalPort colonPort then .error (.invalidPort colonPort)
      else
        let zone := strings.Index (host.take i.toNat) [37, 50, 53]
        if 0 ≤ zone then
          match unescape (host.take zone.toNat) .encodeHost with
          | .error e => .error e
          | .ok host1 =>
            match unescape ((host.take i.toNat).drop zone.toNat) .encodeZone with
            | .error e => .error e
            | .ok host2 =>
              match unescape (host.drop i.toNat) .encodeHost with
              | .error e => .error e
              | .ok host3 => .ok (host1 ++ host2 ++ host3)
        else unescape host .encodeHost
  else
    let i := strings.LastIndexByte host 58
    if i ≠ -1 ∧ !validOptionalPort (host.drop i.toNat) then
      .error (.invalidPort (host.drop i.toNat))
    else unescape host .encodeHost

/-- Go `parseAuthority`: `[userinfo@]host`. -/
def parseAuthority (authority : GoString) : Except UrlError (Option Userinfo × GoString) :=
  let i := strings.LastIndexByte authority 64
  match (if i < 0 then parseHost authority else parseHost (authority.drop (i.toNat + 1))) with
  | .error e => .error e
  | .ok host =>
    if i < 0 then .ok (none, host)
    else
      let userinfo := authority.take i.toNat
      if !validUserinfo userinfo then .error (.text "net/url: invalid userinfo")
      else if !strings.Contains userinfo [58] then
        match unescape userinfo .encodeUserPassword with
        | .error e => .error e
        | .ok userinfo1 => .ok (some ⟨userinfo1, [], false⟩, host)
      else
        let (username, password, _) := strings.Cut userinfo [58]
        match unescape username .encodeUserPassword with
        | .error e => .error e
        | .ok username1 =>
          match unescape password .encodeUserPassword with
          | .error e => .error e
          | .ok password1 => .ok (some ⟨username1, password1, true⟩, host)

/-- The query split of Go `parse`: a single trailing `?` sets `ForceQuery`,
otherwise the text is cut at its first `?`. Returns `(rest, RawQuery, ForceQuery)`. -/
def splitQuery (rest : GoString) : GoString × GoString × Bool :=
  if strings.HasSuffix rest [63] ∧ strings.CountByte rest 63 = 1 then
    (rest.take (rest.length - 1), [], true)
  else
    let (before, after, _) := strings.Cut rest [63]
    (before, after, false)

/-- Go `parse` (unexported): parses a URL without its fragment. -/
def parse (rawURL : GoString) (viaRequest : Bool) : Except UrlError URL :=
  if stringContainsCTLByte rawURL then
    .error (.text "net/url: invalid control character in URL")
  else if rawURL = [] ∧ viaRequest then .error (.text "empty url")
  else if rawURL = [42] then .ok { Path := [42] }
  else
    match getScheme rawURL with
    | .error e => .error e
    | .ok (scheme0, rest0) =>
      let scheme := strings.ToLower scheme0
      let (rest, rawQuery, forceQuery) := splitQuery rest0
      if !strings.HasPrefix rest [47] ∧ scheme ≠ [] then
        -- rootless paths are opaque
        .ok { Scheme := scheme, Opaque := rest, ForceQuery := forceQuery, RawQuery := rawQuery }
      else if !strings.HasPrefix rest [47] ∧ viaRequest then
        .error (.text "invalid URI for request")
      else if !strings.HasPrefix rest [47] ∧
          strings.Contains (strings.Cut rest [47]).1 [58] then
        .error (.text "first path segment in URL cannot contain colon")
      else if (scheme ≠ [] ∨ (!viaRequest ∧ !strings.HasPrefix rest [47, 47, 47])) ∧
          strings.HasPrefix rest [47, 47] then
        let authority0 := rest.drop 2
        let i := strings.Index authority0 [47]
        let authority := if 0 ≤ i then authority0.take i.toNat else authority0
        let rest1 := if 0 ≤ i then authority0.drop i.toNat else []
        match parseAuthority authority with
        | .error e => .error e
        | .ok (user, host) =>
          match unescape rest1 .encodePath with
          | .error e => .error e
          | .ok path =>
            .ok { Scheme := scheme, User := user, Host := host, Path := path,
                  ForceQuery := forceQuery, RawQuery := rawQuery }
      else
        match unescape rest .encodePath with
        | .error e => .error e
        | .ok path =>
          .ok { Scheme := scheme, Path := path,
                OmitHost := decide (scheme ≠ []) && strings.HasPrefix rest [47],
                ForceQuery := forceQuery, RawQuery := rawQuery }

/-- Go `url.Parse`: cuts off the fragment, parses the rest, then unescapes
the fragment. -/
def Parse (rawURL : GoString) : Except UrlError URL :=
  let (u, frag, _) := strings.Cut rawURL [35]
  match parse u false with
  | .error e => .error e
  | .ok url =>
    if frag = [] then .ok url
    else
      match unescape frag .encodeFragment with
      | .error e => .error e
      | .ok f => .ok { url with Fragment := f }

end url

/-! ## Package `bytes` -/

namespace bytes

/-- Go `bytes.Index`: the index of the first instance of `sep` in `s`, or `-1`. -/
def Index (s sep : List Nat) : Int := strings.Index s sep

end bytes

/-! ## Package `debug/elf` -/

namespace elf

/-- Go `elf.Section`: its name, and what `Data` returns for it: the bytes of
the section or a read error. -/
structure Section where
  Name : GoString
  data : Except GoError (List Nat)

/-- Go `elf.File`: its sections, in order. -/
structure File where
  Sections : List Section

/-- The environment of `elf.Open`: the ELF file that each path opens as
(`none` when `os.Open` or `NewFile` fails), the number of file handles that
are open, and, for the paths that do not open as an ELF file, whether there is
a file at the path that is not an ELF file (`NewFile` fails) or no file at all
(`os.Open` fails). -/
structure FileSystem where
  files : GoString → Option File
  openHandles : Nat
  notELF : GoString → Bool := fun _ => false

/-- Go `elf.Open`: on success the file's handle stays open, held by the
returned `File`; on failure no handle is left open, as `Open` closes the file
itself when `NewFile` fails. -/
def Open (fs : FileSystem) (name : GoString) : Option File × FileSystem :=
  match fs.files name with
  | none => (none, fs)
  | some f => (some f, { fs with openHandles := fs.openHandles + 1 })

/-- Go `(*File).Close`: releases the handle that `Open` left open. -/
def File.Close (_ : File) (fs : FileSystem) : FileSystem :=
  { fs with openHandles := fs.openHandles - 1 }

/-- Go `(*File).Section`: the first section with the given name, or `nil`. -/
def File.Section (f : File) (name : GoString) : Option Section :=
  f.Sections.find? (fun s => decide (s.Name = name))

/-- Go `(*Section).Data`. -/
def Section.Data (s : Section) : Except GoError (List Nat) := s.data

end elf

/-! ## Package `helpers`: `updateinformation.go` -/

namespace helpers

/-- Go `UpdateInformation`; the zero value has every field empty. -/
structure UpdateInformation where
  transportmechanism : GoString := []
  fileurl : GoString := []
  username : GoString := []
  repository : GoString := []
  releasename : GoString := []
  filename : GoString := []
  packagename : GoString := []
deriving DecidableEq, Repr

/-- The slice `transportMechanisms` of `ValidateUpdateInformation`. -/
def transportMechanisms : List GoString :=
  [str "zsync", str "bintray-zsync", str "gh-releases-zsync"]

/-- The mechanism loop of `ValidateUpdateInformation`: starting from `""`,
every `tm` with `parts[0] != tm` is assigned to `detectedTm`. -/
def detectTm (parts0 : GoString) : GoString :=
  transportMechanisms.foldl (fun detectedTm tm => if parts0 ≠ tm then tm else detectedTm) []

/-- Go `ValidateUpdateInformation`: `none` is the `nil` error. -/
def ValidateUpdateInformation (updateinformation : GoString) : Option GoError :=
  let parts := strings.SplitByte updateinformation 124
  if parts.length < 2 then
    some (errors.New (str "Update information isn't valid"))
  else
    let detectedTm := detectTm (parts.getD 0 [])
    if detectedTm = [] then
      some (errors.New (str "Invalid transport mechanism in update information"))
    else
      match url.Parse (parts.getD (parts.length - 1) []) with
      | .error _ => some (errors.New (str "Cannot parse URL in update information"))
      | .ok u =>
        if detectedTm = str "zsync" ∧ u.Scheme = [] then
          some (errors.New (str
            "Scheme is missing in update information, zsync needs e.,g,. http:// or https://"))
        else if strings.HasSuffix u.Path (str ".zsync") = false then
          some (errors.New
            (str "Update information '" ++ updateinformation ++ str "' does not end in .zsync"))
        else none

/-- Go `NewUpdateInformationFromString`: returns the record and the error
(`none` is `nil`), as the Go function returns both. -/
def NewUpdateInformationFromString (updateinformation : GoString) :
    UpdateInformation × Option GoError :=
  let ui : UpdateInformation := {}
  let parts := strings.SplitByte updateinformation 124
  match ValidateUpdateInformation updateinformation with
  | some err => (ui, some err)
  | none =>
    let ui := { ui with transportmechanism := parts.getD 0 [] }
    if ui.transportmechanism = str "zsync" then
      if parts.length < 2 then
        (ui, some (errors.New (str "Update information isn't valid")))
      else
        ({ ui with fileurl := parts.getD 1 [] }, none)
    else if ui.transportmechanism = str "gh-releases-zsync" then
      if parts.length < 5 then
        (ui, some (errors.New (str "Update information isn't valid")))
      else
        ({ ui with username := parts.getD 1 [], repository := parts.getD 2 [],
                   releasename := parts.getD 3 [], filename := parts.getD 4 [] }, none)
    else if ui.transportmechanism = str "bintray-zsync" then
      if parts.length < 5 then
        (ui, some (errors.New (str "Update information isn't valid")))
      else
        ({ ui with username := parts.getD 1 [], repository := parts.getD 2 [],
                   packagename := parts.getD 3 [], filename := parts.getD 4 [] }, none)
    else
      (ui, some (errors.New
        (str "The transport mechanism in update information is not yet implemented")))

/-- Go `getChangelogHeadlineForUpdateInformation`: a stub. -/
def getChangelogHeadlineForUpdateInformation (_ : GoString) : GoString := []

/-- Go `ReadUpdateInfo`: returns the string and the error (`none` is `nil`),
and the file system as the call leaves it. -/
def ReadUpdateInfo (fs : elf.FileSystem) (appImagePath : GoString) :
    (GoString × Option GoError) × elf.FileSystem :=
  match elf.Open fs appImagePath with
  | (none, fs1) => (([], some (errors.New (str "file not found"))), fs1)
  | (some elfFile, fs1) =>
    match elfFile.Section (str ".upd_info") with
    | none => (([], some (errors.New (str "ELF missing .upd_info section"))), fs1)
    | some updInfoSect =>
      match updInfoSect.Data with
      | .error _ =>
        (([], some (errors.New (str "unable to read update information from section"))), fs1)
      | .ok sectionData =>
        let str_end := bytes.Index sectionData [0]
        if str_end = -1 ∨ str_end = 0 then
          (([], some (errors.New (str "no update information found"))), fs1)
        else
          ((sectionData.take str_end.toNat, none), fs1)

/-! ### Vocabulary of the update-information grammar -/

/-- The `|`-separated fields of an update-information string. -/
def fields (s : GoString) : List GoString := strings.SplitByte s 124

/-- The last `|`-separated field, `parts[len(parts)-1]`. -/
def lastField (s : GoString) : GoString := (fields s).getD ((fields s).length - 1) []

/-- A byte that stands for itself in a URL path: no control byte and none of
`#`, `%`, `:` and `?`, which the URL syntax reserves. The wildcard `*` is plain. -/
def isPlainByte (b : Nat) : Bool :=
  decide (32 ≤ b) && decide (b ≠ 127) && decide (b ∉ [35, 37, 58, 63])

/-- A plain path, such as a filename pattern: plain bytes only, and no
leading `//`, which would start an authority. -/
def isPlainPath (p : GoString) : Bool :=
  p.all isPlainByte && !strings.HasPrefix p [47, 47]

/-- A plain query: no control byte and no `#`, which would start a fragment. -/
def isPlainQuery (q : GoString) : Bool :=
  q.all (fun b => decide (32 ≤ b) && decide (b ≠ 127) && decide (b ≠ 35))

/-- A URL scheme: a letter followed by letters, digits, `+`, `-` and `.`. -/
def isScheme (s : GoString) : Bool :=
  match s with
  | [] => false
  | c :: cs =>
    (decide (97 ≤ c ∧ c ≤ 122) || decide (65 ≤ c ∧ c ≤ 90)) &&
    cs.all (fun b => decide (97 ≤ b ∧ b ≤ 122) || decide (65 ≤ b ∧ b ≤ 90) ||
      decide (48 ≤ b ∧ b ≤ 57) || decide (b = 43) || decide (b = 45) || decide (b = 46))

/-- A plain host name: letters, digits, `-` and `.` only. -/
def isPlainHost (h : GoString) : Bool :=
  h.all (fun b => decide (97 ≤ b ∧ b ≤ 122) || decide (65 ≤ b ∧ b ≤ 90) ||
    decide (48 ≤ b ∧ b ≤ 57) || decide (b = 45) || decide (b = 46))

/-- A plain absolute path: it starts with `/` and has no control byte and none
of `#`, `%` and `?`. -/
def isPlainAbsPath (p : GoString) : Bool :=
  strings.HasPrefix p [47] &&
  p.all (fun b => decide (32 ≤ b) && decide (b ≠ 127) && decide (b ∉ [35, 37, 63]))

/-- The URL path of `target` ends in `.zsync`: `url.Parse` accepts `target`
and the parsed path has the suffix. -/
def pathEndsInZsync (target : GoString) : Prop :=
  ∃ u, url.Parse target = .ok u ∧ strings.HasSuffix u.Path (str ".zsync") = true

/-! ### Vocabulary of the extractor -/

/-- The payload of the `.upd_info` section of the file at `path`: defined when
the file opens as an ELF file, has the section, and the section is readable. -/
def updInfoPayload (fs : elf.FileSystem) (path : GoString) : Option (List Nat) :=
  match fs.files path with
  | none => none
  | some f =>
    match f.Section (str ".upd_info") with
    | none => none
    | some sect =>
      match sect.Data with
      | .error _ => none
      | .ok payload => some payload

/-- A file system with no open handle in which every path opens as an ELF
file whose only section is `.upd_info`, holding `payload`. -/
def fixture (payload : List Nat) : elf.FileSystem :=
  { files := fun _ => some ⟨[⟨str ".upd_info", .ok payload⟩]⟩, openHandles := 0 }

/-! ### Vocabulary of the error taxonomy -/

/-- The failure kinds of the taxonomy that the three functions produce. -/
inductive FailureKind where
  | TooFewFields
  | UnparsableTrailingSegment
  | WrongSuffix
  | InsufficientFields
  | UnknownMechanism
  | FileNotFound
  | NotAnElfFile
  | SectionMissing
  | SectionUnreadable
  | NoTerminator
  | EmptyPayload
deriving DecidableEq, Repr

/-- A call of one of the three functions. -/
inductive Call where
  | validate (s : GoString)
  | parse (s : GoString)
  | read (fs : elf.FileSystem) (path : GoString)

/-- The string a call is given. -/
def Call.input : Call → GoString
  | .validate s => s
  | .parse s => s
  | .read _ path => path

/-- The error a call returns, `none` when it succeeds. -/
def Call.error : Call → Option GoError
  | .validate s => ValidateUpdateInformation s
  | .parse s => (NewUpdateInformationFromString s).2
  | .read fs path => (ReadUpdateInfo fs path).1.2

/-- The kind of failure of the validator on `s`, by the input condition that
the taxonomy names; `none` when no such condition holds. -/
def validateKind (s : GoString) : Option FailureKind :=
  if (fields s).length < 2 then some .TooFewFields
  else
    match url.Parse (lastField s) with
    | .error _ => some .UnparsableTrailingSegment
    | .ok u =>
      if strings.HasSuffix u.Path (str ".zsync") = true then none else some .WrongSuffix

/-- The kind of failure of the parser on `s`: that of the validator, and on a
validated input the mechanism-specific field count or the mechanism itself. -/
def parseKind (s : GoString) : Option FailureKind :=
  match validateKind s with
  | some k => some k
  | none =>
    if (fields s).getD 0 [] = str "zsync" then none
    else if (fields s).getD 0 [] = str "gh-releases-zsync" ∨
        (fields s).getD 0 [] = str "bintray-zsync" then
      if (fields s).length < 5 then some .InsufficientFields else none
    else some .UnknownMechanism

/-- The kind of failure of the extractor on the file at `path`. -/
def readKind (fs : elf.FileSystem) (path : GoString) : Option FailureKind :=
  match fs.files path with
  | none => if fs.notELF path = true then some .NotAnElfFile else some .FileNotFound
  | some f =>
    match f.Section (str ".upd_info") with
    | none => some .SectionMissing
    | some sect =>
      match sect.Data with
      | .error _ => some .SectionUnreadable
      | .ok payload =>
        if 0 ∉ payload then some .NoTerminator
        else if payload.head? = some 0 then some .EmptyPayload
        else none

/-- The kind of failure of a call. -/
def Call.kind : Call → Option FailureKind
  | .validate s => validateKind s
  | .parse s => parseKind s
  | .read fs path => readKind fs path

/-- Two kinds share an error: they are the same kind, or `TooFewFields` and
`InsufficientFields`, or `FileNotFound` and `NotAnElfFile`, or `NoTerminator`
and `EmptyPayload`. -/
def sharesError (k1 k2 : FailureKind) : Bool :=
  decide (k1 = k2) ||
  decide (k1 = .TooFewFields ∧ k2 = .InsufficientFields) ||
  decide (k1 = .InsufficientFields ∧ k2 = .TooFewFields) ||
  decide (k1 = .FileNotFound ∧ k2 = .NotAnElfFile) ||
  decide (k1 = .NotAnElfFile ∧ k2 = .FileNotFound) ||
  decide (k1 = .NoTerminator ∧ k2 = .EmptyPayload) ||
  decide (k1 = .EmptyPayload ∧ k2 = .NoTerminator)

/-- The error by which the code reports a failure kind on a given input. -/
def kindError (k : FailureKind) (input : GoString) : GoError :=
  match k with
  | .TooFewFields => errors.New (str "Update information isn't valid")
  | .UnparsableTrailingSegment => errors.New (str "Cannot parse URL in update information")
  | .WrongSuffix =>
    errors.New (str "Update information '" ++ input ++ str "' does not end in .zsync")
  | .InsufficientFields => errors.New (str "Update information isn't valid")
  | .UnknownMechanism =>
    errors.New (str "The transport mechanism in update information is not yet implemented")
  | .FileNotFound => errors.New (str "file not found")
  | .NotAnElfFile => errors.New (str "file not found")
  | .SectionMissing => errors.New (str "ELF missing .upd_info section")
  | .SectionUnreadable => errors.New (str "unable to read update information from section")
  | .NoTerminator => errors.New (str "no update information found")
  | .EmptyPayload => errors.New (str "no update information found")

end helpers

/-! ## Lemmas: the mechanism loop -/

namespace helpers

theorem str_zsync : str "zsync" = [122, 115, 121, 110, 99] := by decide
theorem str_bintray : str "bintray-zsync" = [98, 105, 110, 116, 114, 97, 121, 45, 122, 115, 121, 110, 99] := by decide
theorem str_gh : str "gh-releases-zsync" =
    [103, 104, 45, 114, 101, 108, 101, 97, 115, 101, 115, 45, 122, 115, 121, 110, 99] := by decide

theorem detectTm_eq (p : GoString) :
    detectTm p = if p = str "gh-releases-zsync" then str "bintray-zsync" else str "gh-releases-zsync" := by
  unfold detectTm transportMechanisms
  simp only [List.foldl]
  by_cases h : p = str "gh-releases-zsync"
  · subst h
    simp [str_zsync, str_bintray, str_gh]
  · simp [h]

theorem detectTm_ne_nil (p : GoString) : detectTm p ≠ [] := by
  rw [detectTm_eq]; split_ifs <;> simp [str_bintray, str_gh]

theorem detectTm_ne_zsync (p : GoString) : detectTm p ≠ str "zsync" := by
  rw [detectTm_eq]; split_ifs <;> simp [str_bintray, str_gh, str_zsync]

end helpers

/-! ## Lemmas: `strings` -/

namespace strings

theorem SplitByte_ne_nil (s : GoString) (sep : Nat) : SplitByte s sep ≠ [] := by
  induction s with
  | nil => simp [SplitByte]
  | cons b bs ih =>
    unfold SplitByte
    split_ifs
    · simp
    · split <;> simp

theorem SplitByte_of_not_mem (s : GoString) (sep : Nat) (h : sep ∉ s) : SplitByte s sep = [s] := by
  induction s with
  | nil => simp [SplitByte]
  | cons b bs ih =>
    have hb : b ≠ sep := fun e => h (by simp [e])
    have hbs : sep ∉ bs := fun e => h (by simp [e])
    simp [SplitByte, hb, ih hbs]

theorem SplitByte_append (a rest : GoString) (sep : Nat) (h : sep ∉ a) :
    SplitByte (a ++ sep :: rest) sep = a :: SplitByte rest sep := by
  induction a with
  | nil => simp [SplitByte]
  | cons b bs ih =>
    have hb : b ≠ sep := fun e => h (by simp [e])
    have hbs : sep ∉ bs := fun e => h (by simp [e])
    simp [SplitByte, hb, ih hbs]

theorem Index_singleton_of_not_mem (s : GoString) (c : Nat) (h : c ∉ s) : Index s [c] = -1 := by
  induction s with
  | nil => simp [Index]
  | cons b bs ih =>
    have hb : b ≠ c := fun e => h (by simp [e])
    have hbs : c ∉ bs := fun e => h (by simp [e])
    simp [Index, HasPrefix, hb, ih hbs]

theorem Index_singleton_append (p q : GoString) (c : Nat) (h : c ∉ p) :
    Index (p ++ c :: q) [c] = p.length := by
  induction p with
  | nil => simp [Index, HasPrefix]
  | cons b bs ih =>
    have hb : b ≠ c := fun e => h (by simp [e])
    have hbs : c ∉ bs := fun e => h (by simp [e])
    simp [Index, HasPrefix, hb, ih hbs]

theorem Cut_singleton_of_not_mem (s : GoString) (c : Nat) (h : c ∉ s) :
    Cut s [c] = (s, [], false) := by
  simp [Cut, Index_singleton_of_not_mem s c h]

theorem Cut_singleton_append (p q : GoString) (c : Nat) (h : c ∉ p) :
    Cut (p ++ c :: q) [c] = (p, q, true) := by
  simp [Cut, Index_singleton_append p q c h]

theorem Contains_singleton_of_not_mem (s : GoString) (c : Nat) (h : c ∉ s) :
    Contains s [c] = false := by
  simp [Contains, Index_singleton_of_not_mem s c h]

theorem Index_singleton_nonneg_mem (s : GoString) (c : Nat) (h : 0 ≤ Index s [c]) : c ∈ s := by
  by_contra hc
  rw [Index_singleton_of_not_mem s c hc] at h
  omega

theorem HasSuffix_iff (s suffix : GoString) : HasSuffix s suffix = true ↔ suffix <:+ s := by
  simp only [HasSuffix, Bool.and_eq_true, decide_eq_true_eq]
  constructor
  · rintro ⟨_, h⟩
    exact List.suffix_iff_eq_drop.2 h.symm
  · intro h
    exact ⟨h.length_le, (List.suffix_iff_eq_drop.1 h).symm⟩

end strings

/-! ## Lemmas: `url.Parse` on plain paths -/

namespace url

theorem unescapeCheck_path_of_not_mem (s : GoString) (n : Nat) (h : 37 ∉ s) :
    unescapeCheck .encodePath s n false = .ok (n, false) := by
  induction s with
  | nil => simp [unescapeCheck]
  | cons b bs ih =>
    have hb : b ≠ 37 := fun e => h (by simp [e])
    have hbs : 37 ∉ bs := fun e => h (by simp [e])
    by_cases h43 : b = 43
    · subst h43
      simp [unescapeCheck, ih hbs]
    · rw [unescapeCheck]
      · simp [ih hbs]
      all_goals (intros; contradiction)

theorem unescape_path_of_not_mem (s : GoString) (h : 37 ∉ s) :
    unescape s .encodePath = .ok s := by
  simp [unescape, unescapeCheck_path_of_not_mem s 0 h]


theorem stringContainsCTLByte_eq_false (s : GoString) (h : ∀ b ∈ s, 32 ≤ b ∧ b ≠ 127) :
    stringContainsCTLByte s = false := by
  simp only [stringContainsCTLByte, List.any_eq_false]
  intro b hb
  have := h b hb
  simp [this.2]
  omega

theorem getSchemeLoop_no_colon (raw p t : GoString) (i : Nat) (hp : 58 ∉ p)
    (ht : t = [] ∨ ∃ q, t = 63 :: q) : getSchemeLoop raw i (p ++ t) = .ok ([], raw) := by
  induction p generalizing i with
  | nil =>
    rcases ht with rfl | ⟨q, rfl⟩
    · simp [getSchemeLoop]
    · simp [getSchemeLoop]
  | cons b bs ih =>
    have hb : b ≠ 58 := fun e => hp (by simp [e])
    have hbs : 58 ∉ bs := fun e => hp (by simp [e])
    simp only [List.cons_append, getSchemeLoop, ih _ hbs, hb, if_false]
    split_ifs <;> first | rfl | exact ih _ hbs

theorem splitQuery_of_not_mem (p : GoString) (h : 63 ∉ p) : splitQuery p = (p, [], false) := by
  have hc : strings.CountByte p 63 = 0 := by
    simp [strings.CountByte, List.count_eq_zero, h]
  simp [splitQuery, hc, strings.Cut_singleton_of_not_mem p 63 h]

theorem splitQuery_append (p q : GoString) (h : 63 ∉ p) :
    splitQuery (p ++ 63 :: q) = (p, q, decide (q = [])) := by
  have hcnt : strings.CountByte (p ++ 63 :: q) 63 = 1 + q.count 63 := by
    simp [strings.CountByte, List.count_eq_zero.2 h]; omega
  by_cases hq : q = []
  · subst hq
    simp [splitQuery, hcnt, strings.HasSuffix]
  · have hc : ¬ (strings.HasSuffix (p ++ 63 :: q) [63] = true ∧
        strings.CountByte (p ++ 63 :: q) 63 = 1) := by
      rintro ⟨hs, h1⟩
      rw [strings.HasSuffix_iff] at hs
      have hmem : 63 ∈ q := by
        obtain ⟨t, ht⟩ := hs
        have hl := congrArg List.getLast? ht
        have hsplit : p ++ 63 :: q = (p ++ [63]) ++ q := by simp
        rw [hsplit, List.getLast?_append_of_ne_nil _ hq] at hl
        simp at hl
        exact List.mem_of_getLast?_eq_some hl.symm
      rw [hcnt] at h1
      have : 0 < q.count 63 := List.count_pos_iff.2 hmem
      omega
    simp only [splitQuery, hc, if_false, strings.Cut_singleton_append p q 63 h, hq]
    simp


theorem not_mem_Cut_fst (s sep : GoString) (c : Nat) (h : c ∉ s) : c ∉ (strings.Cut s sep).1 := by
  unfold strings.Cut
  simp only []
  split_ifs
  · exact fun hm => h (List.mem_of_mem_take hm)
  · exact h

theorem parse_of_plain (raw p rq : GoString) (fq : Bool)
    (hctl : stringContainsCTLByte raw = false)
    (hs : getScheme raw = .ok ([], raw))
    (hq : splitQuery raw = (p, rq, fq))
    (h37 : 37 ∉ p) (h58 : 58 ∉ p) (hpre : strings.HasPrefix p [47, 47] = false) :
    parse raw false = .ok { Path := p, ForceQuery := fq, RawQuery := rq } := by
  have hcolon : strings.Contains (strings.Cut p [47]).1 [58] = false :=
    strings.Contains_singleton_of_not_mem _ 58 (not_mem_Cut_fst p [47] 58 h58)
  by_cases hstar : raw = [42]
  · subst hstar
    have : splitQuery [42] = ([42], [], false) := by decide
    rw [this] at hq
    simp only [Prod.mk.injEq] at hq
    obtain ⟨rfl, rfl, rfl⟩ := hq
    simp [parse, stringContainsCTLByte]
  · unfold parse
    simp [hctl, hstar, hs, hq, strings.ToLower, hcolon, hpre, unescape_path_of_not_mem p h37]

end url

namespace helpers

theorem isPlainPath_spec (p : GoString) (h : isPlainPath p = true) :
    (∀ b ∈ p, 32 ≤ b ∧ b ≠ 127) ∧ 35 ∉ p ∧ 37 ∉ p ∧ 58 ∉ p ∧ 63 ∉ p ∧
      strings.HasPrefix p [47, 47] = false := by
  simp only [isPlainPath, Bool.and_eq_true, List.all_eq_true, isPlainByte, decide_eq_true_eq,
    Bool.not_eq_true'] at h
  obtain ⟨hall, hpre⟩ := h
  refine ⟨fun b hb => ⟨(hall b hb).1.1, (hall b hb).1.2⟩, ?_, ?_, ?_, ?_, hpre⟩
  all_goals
    intro hm
    have := (hall _ hm).2
    simp at this

theorem Parse_plain (p : GoString) (h : isPlainPath p = true) :
    url.Parse p = .ok { Path := p } := by
  obtain ⟨hctl, h35, h37, h58, h63, hpre⟩ := isPlainPath_spec p h
  have hparse : url.parse p false = .ok { Path := p, ForceQuery := false, RawQuery := [] } :=
    url.parse_of_plain p p [] false (url.stringContainsCTLByte_eq_false p hctl)
      (by simpa using url.getSchemeLoop_no_colon p p [] 0 h58 (Or.inl rfl))
      (url.splitQuery_of_not_mem p h63) h37 h58 hpre
  simp [url.Parse, strings.Cut_singleton_of_not_mem p 35 h35, hparse]

theorem Parse_plain_query (p q : GoString) (hp : isPlainPath p = true)
    (hq : isPlainQuery q = true) :
    url.Parse (p ++ 63 :: q) = .ok { Path := p, ForceQuery := decide (q = []), RawQuery := q } := by
  obtain ⟨hctl, h35, h37, h58, h63, hpre⟩ := isPlainPath_spec p hp
  simp only [isPlainQuery, List.all_eq_true, Bool.and_eq_true, decide_eq_true_eq] at hq
  have hctl2 : ∀ b ∈ p ++ 63 :: q, 32 ≤ b ∧ b ≠ 127 := by
    intro b hb
    simp only [List.mem_append, List.mem_cons] at hb
    rcases hb with hb | rfl | hb
    · exact hctl b hb
    · decide
    · exact (hq b hb).1
  have h35' : 35 ∉ p ++ 63 :: q := by
    intro hb
    simp only [List.mem_append, List.mem_cons] at hb
    rcases hb with hb | hb | hb
    · exact h35 hb
    · omega
    · exact (hq 35 hb).2 rfl
  have hparse : url.parse (p ++ 63 :: q) false =
      .ok { Path := p, ForceQuery := decide (q = []), RawQuery := q } :=
    url.parse_of_plain (p ++ 63 :: q) p q (decide (q = []))
      (url.stringContainsCTLByte_eq_false _ hctl2)
      (url.getSchemeLoop_no_colon _ p (63 :: q) 0 h58 (Or.inr ⟨q, rfl⟩))
      (url.splitQuery_append p q h63) h37 h58 hpre
  simp [url.Parse, strings.Cut_singleton_of_not_mem _ 35 h35', hparse]

theorem validate_eq_none_iff (s : GoString) :
    ValidateUpdateInformation s = none ↔
      2 ≤ (fields s).length ∧ pathEndsInZsync (lastField s) := by
  unfold ValidateUpdateInformation pathEndsInZsync lastField fields
  simp only [detectTm_ne_nil, detectTm_ne_zsync, false_and, if_false]
  by_cases hlen : (strings.SplitByte s 124).length < 2
  · simp [hlen]
  · simp only [hlen, if_false]
    have h2 : 2 ≤ (strings.SplitByte s 124).length := by omega
    cases hp : url.Parse ((strings.SplitByte s 124).getD ((strings.SplitByte s 124).length - 1) []) with
    | error e => simp [h2]
    | ok u =>
      simp only [h2, true_and]
      by_cases hs : strings.HasSuffix u.Path (str ".zsync") = true
      · simp [hs]
      · simp [hs]

end helpers

/-! ## Lemmas: fields and the parser's dispatch -/

namespace helpers

theorem str_bar : str "|" = [124] := by decide

theorem str_query : str "?" = [63] := by decide

theorem not_mem_zsync : 124 ∉ str "zsync" := by decide

theorem not_mem_gh : 124 ∉ str "gh-releases-zsync" := by decide

theorem not_mem_bintray : 124 ∉ str "bintray-zsync" := by decide

theorem fields_of_not_mem (s : GoString) (h : 124 ∉ s) : fields s = [s] :=
  strings.SplitByte_of_not_mem s 124 h

theorem fields_two (a b : GoString) (ha : 124 ∉ a) (hb : 124 ∉ b) :
    fields (a ++ str "|" ++ b) = [a, b] := by
  simp only [fields, str_bar, List.append_assoc, List.singleton_append]
  rw [strings.SplitByte_append a _ 124 ha, strings.SplitByte_of_not_mem b 124 hb]

theorem fields_five (a b c d e : GoString) (ha : 124 ∉ a) (hb : 124 ∉ b) (hc : 124 ∉ c)
    (hd : 124 ∉ d) (he : 124 ∉ e) :
    fields (a ++ str "|" ++ b ++ str "|" ++ c ++ str "|" ++ d ++ str "|" ++ e) =
      [a, b, c, d, e] := by
  simp only [fields, str_bar, List.append_assoc, List.singleton_append, List.cons_append,
    List.nil_append]
  rw [strings.SplitByte_append a _ 124 ha, strings.SplitByte_append b _ 124 hb,
    strings.SplitByte_append c _ 124 hc, strings.SplitByte_append d _ 124 hd,
    strings.SplitByte_of_not_mem e 124 he]

theorem new_of_invalid (s : GoString) (e : GoError) (h : ValidateUpdateInformation s = some e) :
    NewUpdateInformationFromString s = ({}, some e) := by
  simp [NewUpdateInformationFromString, h]

theorem new_zsync (s : GoString) (hv : ValidateUpdateInformation s = none)
    (h0 : (fields s).getD 0 [] = str "zsync") :
    NewUpdateInformationFromString s =
      ({ transportmechanism := str "zsync", fileurl := (fields s).getD 1 [] }, none) := by
  have hlen : ¬ (fields s).length < 2 := by
    have := ((validate_eq_none_iff s).1 hv).1
    omega
  unfold fields at h0 hlen
  simp only [NewUpdateInformationFromString, hv, h0, hlen, fields, if_true, if_false]

theorem new_gh (s : GoString) (hv : ValidateUpdateInformation s = none)
    (h0 : (fields s).getD 0 [] = str "gh-releases-zsync") (hlen : 5 ≤ (fields s).length) :
    NewUpdateInformationFromString s =
      ({ transportmechanism := str "gh-releases-zsync", username := (fields s).getD 1 [],
         repository := (fields s).getD 2 [], releasename := (fields s).getD 3 [],
         filename := (fields s).getD 4 [] }, none) := by
  have hlen2 : ¬ (fields s).length < 5 := by omega
  have hne : str "gh-releases-zsync" ≠ str "zsync" := by decide
  unfold fields at h0 hlen2
  simp only [NewUpdateInformationFromString, hv, h0, hlen2, fields, hne, if_true, if_false]

theorem new_bintray (s : GoString) (hv : ValidateUpdateInformation s = none)
    (h0 : (fields s).getD 0 [] = str "bintray-zsync") (hlen : 5 ≤ (fields s).length) :
    NewUpdateInformationFromString s =
      ({ transportmechanism := str "bintray-zsync", username := (fields s).getD 1 [],
         repository := (fields s).getD 2 [], packagename := (fields s).getD 3 [],
         filename := (fields s).getD 4 [] }, none) := by
  have hlen2 : ¬ (fields s).length < 5 := by omega
  have hne : str "bintray-zsync" ≠ str "zsync" := by decide
  have hne2 : str "bintray-zsync" ≠ str "gh-releases-zsync" := by decide
  unfold fields at h0 hlen2
  simp only [NewUpdateInformationFromString, hv, h0, hlen2, fields, hne, hne2, if_true, if_false]

theorem pathEndsInZsync_of_plain (f : GoString) (hf : isPlainPath f = true)
    (hz : strings.HasSuffix f (str ".zsync") = true) : pathEndsInZsync f :=
  ⟨{ Path := f }, Parse_plain f hf, hz⟩


theorem not_pathEndsInZsync_of_parse (t : GoString) (u : url.URL) (hp : url.Parse t = .ok u)
    (hs : strings.HasSuffix u.Path (str ".zsync") = false) : ¬ pathEndsInZsync t := by
  rintro ⟨v, hv, hsv⟩
  rw [hp] at hv
  cases hv
  rw [hs] at hsv
  exact Bool.noConfusion hsv

theorem new_transportmechanism (s : GoString) (ui : UpdateInformation)
    (h : NewUpdateInformationFromString s = (ui, none)) :
    ui.transportmechanism = (fields s).getD 0 [] := by
  unfold NewUpdateInformationFromString at h
  cases hv : ValidateUpdateInformation s with
  | some e => simp [hv] at h
  | none =>
    simp only [hv] at h
    unfold fields
    split_ifs at h <;> (simp only [Prod.mk.injEq] at h; rw [← h.1])

end helpers

/-! ## Lemmas: the extractor -/

namespace strings

theorem Index_singleton_cons (b : Nat) (bs : GoString) (c : Nat) :
    Index (b :: bs) [c] =
      if b = c then 0 else if Index bs [c] < 0 then -1 else Index bs [c] + 1 := by
  simp [Index, HasPrefix]

theorem Index_singleton_nonneg_of_mem (s : GoString) (c : Nat) (h : c ∈ s) :
    0 ≤ Index s [c] := by
  induction s with
  | nil => simp at h
  | cons b bs ih =>
    rw [Index_singleton_cons]
    by_cases hb : b = c
    · simp [hb]
    · have hm : c ∈ bs := by
        rcases List.mem_cons.1 h with e | e
        · exact absurd e.symm hb
        · exact e
      have := ih hm
      simp only [hb, if_false]
      split_ifs <;> omega

theorem Index_singleton_eq_zero_iff (s : GoString) (c : Nat) :
    Index s [c] = 0 ↔ s.head? = some c := by
  cases s with
  | nil => simp [Index]
  | cons b bs =>
    rw [Index_singleton_cons]
    by_cases hb : b = c
    · simp [hb]
    · simp only [hb, if_false, List.head?_cons, Option.some.injEq]
      constructor
      · intro h
        split_ifs at h
        all_goals omega
      · intro h
        exact absurd h (by simp)

theorem Index_singleton_eq_neg_one_iff (s : GoString) (c : Nat) :
    Index s [c] = -1 ↔ c ∉ s := by
  constructor
  · intro h hm
    have := Index_singleton_nonneg_of_mem s c hm
    omega
  · exact Index_singleton_of_not_mem s c

end strings

namespace helpers

theorem read_of_open_failed (fs : elf.FileSystem) (path : GoString) (h : fs.files path = none) :
    ReadUpdateInfo fs path = (([], some (errors.New (str "file not found"))), fs) := by
  simp [ReadUpdateInfo, elf.Open, h]

theorem read_of_section_missing (fs : elf.FileSystem) (path : GoString) (f : elf.File)
    (h : fs.files path = some f) (hs : f.Section (str ".upd_info") = none) :
    ReadUpdateInfo fs path =
      (([], some (errors.New (str "ELF missing .upd_info section"))),
        { fs with openHandles := fs.openHandles + 1 }) := by
  simp [ReadUpdateInfo, elf.Open, h, hs]

theorem read_of_section_unreadable (fs : elf.FileSystem) (path : GoString) (f : elf.File)
    (sect : elf.Section) (e : GoError)
    (h : fs.files path = some f) (hs : f.Section (str ".upd_info") = some sect)
    (hd : sect.Data = .error e) :
    ReadUpdateInfo fs path =
      (([], some (errors.New (str "unable to read update information from section"))),
        { fs with openHandles := fs.openHandles + 1 }) := by
  simp [ReadUpdateInfo, elf.Open, h, hs, hd]

theorem read_of_payload (fs : elf.FileSystem) (path : GoString) (payload : List Nat)
    (h : updInfoPayload fs path = some payload) :
    ReadUpdateInfo fs path =
      ((if bytes.Index payload [0] = -1 ∨ bytes.Index payload [0] = 0 then
          ([], some (errors.New (str "no update information found")))
        else (payload.take (bytes.Index payload [0]).toNat, none)),
        { fs with openHandles := fs.openHandles + 1 }) := by
  unfold updInfoPayload at h
  cases hf : fs.files path with
  | none => simp [hf] at h
  | some f =>
    simp only [hf] at h
    cases hs : f.Section (str ".upd_info") with
    | none => simp [hs] at h
    | some sect =>
      simp only [hs] at h
      cases hd : sect.Data with
      | error e => simp [hd] at h
      | ok d =>
        simp only [hd, Option.some.injEq] at h
        subst h
        simp only [ReadUpdateInfo, elf.Open, hf, hs, hd]
        split_ifs <;> rfl

theorem read_of_terminated (fs : elf.FileSystem) (path : GoString) (pre post : List Nat)
    (h : updInfoPayload fs path = some (pre ++ 0 :: post)) (hne : pre ≠ []) (h0 : 0 ∉ pre) :
    (ReadUpdateInfo fs path).1 = (pre, none) := by
  have hi : bytes.Index (pre ++ 0 :: post) [0] = pre.length :=
    strings.Index_singleton_append pre post 0 h0
  have hlen : pre.length ≠ 0 := fun e => hne (List.length_eq_zero.1 e)
  rw [read_of_payload fs path _ h, hi]
  have h1 : ¬ ((pre.length : Int) = -1 ∨ (pre.length : Int) = 0) := by omega
  rw [if_neg h1]
  simp

end helpers

/-! ## Lemmas: the errors of the validator and the parser -/

namespace helpers

theorem validate_simplified (s : GoString) :
    ValidateUpdateInformation s =
      if (fields s).length < 2 then some (errors.New (str "Update information isn't valid"))
      else
        match url.Parse (lastField s) with
        | .error _ => some (errors.New (str "Cannot parse URL in update information"))
        | .ok u =>
          if strings.HasSuffix u.Path (str ".zsync") = false then
            some (errors.New
              (str "Update information '" ++ s ++ str "' does not end in .zsync"))
          else none := by
  unfold ValidateUpdateInformation lastField fields
  simp only [detectTm_ne_nil, detectTm_ne_zsync, false_and, if_false]

theorem validate_error_cases (s : GoString) (e : GoError)
    (h : ValidateUpdateInformation s = some e) :
    e = errors.New (str "Update information isn't valid") ∨
    e = errors.New (str "Cannot parse URL in update information") ∨
    e = errors.New (str "Update information '" ++ s ++ str "' does not end in .zsync") := by
  rw [validate_simplified] at h
  split_ifs at h with h1
  · left
    exact (Option.some.inj h).symm
  · split at h
    · right; left
      exact (Option.some.inj h).symm
    · split_ifs at h
      right; right
      exact (Option.some.inj h).symm

theorem str_wrong_suffix_head :
    str "Update information '" =
      [85, 112, 100, 97, 116, 101, 32, 105, 110, 102, 111, 114, 109, 97, 116, 105, 111, 110, 32,
        39] := by
  decide

theorem wrong_suffix_take (s : GoString) :
    (str "Update information '" ++ s ++ str "' does not end in .zsync").take 20 =
      str "Update information '" := by
  rw [List.append_assoc, List.take_append_of_le_length (by rw [str_wrong_suffix_head]; simp)]
  rw [str_wrong_suffix_head]
  rfl

theorem new_error_of_short (s : GoString)
    (h0 : (fields s).getD 0 [] = str "gh-releases-zsync" ∨
      (fields s).getD 0 [] = str "bintray-zsync")
    (hlen : (fields s).length < 5) :
    ∃ e, (NewUpdateInformationFromString s).2 = some e := by
  cases hv : ValidateUpdateInformation s with
  | some e => exact ⟨e, by rw [new_of_invalid s e hv]⟩
  | none =>
    have hg : str "gh-releases-zsync" ≠ str "zsync" := by decide
    have hb : str "bintray-zsync" ≠ str "zsync" := by decide
    have hbg : str "bintray-zsync" ≠ str "gh-releases-zsync" := by decide
    unfold fields at h0 hlen
    refine ⟨errors.New (str "Update information isn't valid"), ?_⟩
    rcases h0 with h0 | h0
    · simp only [NewUpdateInformationFromString, hv, h0, hg, hlen, if_true, if_false]
    · simp only [NewUpdateInformationFromString, hv, h0, hb, hbg, hlen, if_true, if_false]

theorem new_error_of_unknown (s : GoString)
    (hz : (fields s).getD 0 [] ≠ str "zsync")
    (hg : (fields s).getD 0 [] ≠ str "gh-releases-zsync")
    (hb : (fields s).getD 0 [] ≠ str "bintray-zsync") :
    (NewUpdateInformationFromString s).2 = (ValidateUpdateInformation s).or
      (some (errors.New
        (str "The transport mechanism in update information is not yet implemented"))) := by
  cases hv : ValidateUpdateInformation s with
  | some e => rw [new_of_invalid s e hv]; rfl
  | none =>
    unfold fields at hz hg hb
    simp only [NewUpdateInformationFromString, hv, hz, hg, hb, if_false]
    rfl

theorem new_success (s : GoString) (ui : UpdateInformation)
    (h : NewUpdateInformationFromString s = (ui, none)) :
    ValidateUpdateInformation s = none ∧
    (((fields s).getD 0 [] = str "zsync" ∧
        ui = { transportmechanism := str "zsync", fileurl := (fields s).getD 1 [] }) ∨
     ((fields s).getD 0 [] = str "gh-releases-zsync" ∧ 5 ≤ (fields s).length ∧
        ui = { transportmechanism := str "gh-releases-zsync", username := (fields s).getD 1 [],
               repository := (fields s).getD 2 [], releasename := (fields s).getD 3 [],
               filename := (fields s).getD 4 [] }) ∨
     ((fields s).getD 0 [] = str "bintray-zsync" ∧ 5 ≤ (fields s).length ∧
        ui = { transportmechanism := str "bintray-zsync", username := (fields s).getD 1 [],
               repository := (fields s).getD 2 [], packagename := (fields s).getD 3 [],
               filename := (fields s).getD 4 [] })) := by
  cases hv : ValidateUpdateInformation s with
  | some e =>
    rw [new_of_invalid s e hv] at h
    simp at h
  | none =>
    refine ⟨rfl, ?_⟩
    by_cases hz : (fields s).getD 0 [] = str "zsync"
    · rw [new_zsync s hv hz] at h
      exact Or.inl ⟨hz, (Prod.mk.inj h).1.symm⟩
    · by_cases hg : (fields s).getD 0 [] = str "gh-releases-zsync"
      · by_cases hlen : 5 ≤ (fields s).length
        · rw [new_gh s hv hg hlen] at h
          exact Or.inr (Or.inl ⟨hg, hlen, (Prod.mk.inj h).1.symm⟩)
        · obtain ⟨e, he⟩ := new_error_of_short s (Or.inl hg) (by omega)
          rw [h] at he
          simp at he
      · by_cases hb : (fields s).getD 0 [] = str "bintray-zsync"
        · by_cases hlen : 5 ≤ (fields s).length
          · rw [new_bintray s hv hb hlen] at h
            exact Or.inr (Or.inr ⟨hb, hlen, (Prod.mk.inj h).1.symm⟩)
          · obtain ⟨e, he⟩ := new_error_of_short s (Or.inr hb) (by omega)
            rw [h] at he
            simp at he
        · have he := new_error_of_unknown s hz hg hb
          rw [h, hv] at he
          simp at he

end helpers

/-! ## Lemmas: failure kinds and their errors -/

namespace helpers

theorem validate_of_kind (s : GoString) :
    ValidateUpdateInformation s = (validateKind s).map (fun k => kindError k s) := by
  rw [validate_simplified]
  unfold validateKind
  split_ifs with h1
  · rfl
  · cases hp : url.Parse (lastField s) with
    | error e => rfl
    | ok u =>
      by_cases hs : strings.HasSuffix u.Path (str ".zsync") = true
      · simp [hs]
      · simp [hs, kindError]

theorem new_error_of_valid (s : GoString) (hv : ValidateUpdateInformation s = none) :
    (NewUpdateInformationFromString s).2 =
      if (fields s).getD 0 [] = str "zsync" then none
      else if (fields s).getD 0 [] = str "gh-releases-zsync" ∨
          (fields s).getD 0 [] = str "bintray-zsync" then
        if (fields s).length < 5 then some (errors.New (str "Update information isn't valid"))
        else none
      else some (errors.New
        (str "The transport mechanism in update information is not yet implemented")) := by
  have hlen : ¬ (fields s).length < 2 := by
    have := ((validate_eq_none_iff s).1 hv).1
    omega
  unfold fields at hlen
  unfold NewUpdateInformationFromString fields
  simp only [hv]
  split_ifs <;> simp_all

theorem parse_of_kind (s : GoString) :
    (NewUpdateInformationFromString s).2 = (parseKind s).map (fun k => kindError k s) := by
  cases hk : validateKind s with
  | some k =>
    have hv : ValidateUpdateInformation s = some (kindError k s) := by
      rw [validate_of_kind, hk]; rfl
    rw [new_of_invalid s _ hv]
    simp [parseKind, hk]
  | none =>
    have hv : ValidateUpdateInformation s = none := by
      rw [validate_of_kind, hk]; rfl
    rw [new_error_of_valid s hv]
    simp only [parseKind, hk]
    split_ifs <;> rfl

theorem read_of_kind (fs : elf.FileSystem) (path : GoString) :
    (ReadUpdateInfo fs path).1.2 = (readKind fs path).map (fun k => kindError k path) := by
  cases hf : fs.files path with
  | none =>
    rw [read_of_open_failed fs path hf]
    simp only [readKind, hf]
    split_ifs <;> rfl
  | some f =>
    cases hs : f.Section (str ".upd_info") with
    | none =>
      rw [read_of_section_missing fs path f hf hs]
      simp [readKind, hf, hs, kindError]
    | some sect =>
      cases hd : sect.Data with
      | error e =>
        rw [read_of_section_unreadable fs path f sect e hf hs hd]
        simp [readKind, hf, hs, hd, kindError]
      | ok payload =>
        have hp : updInfoPayload fs path = some payload := by
          simp [updInfoPayload, hf, hs, hd]
        rw [read_of_payload fs path payload hp]
        unfold bytes.Index
        simp only [readKind, hf, hs, hd, strings.Index_singleton_eq_neg_one_iff,
          strings.Index_singleton_eq_zero_iff]
        by_cases h0 : 0 ∉ payload
        · simp [h0, kindError]
        · by_cases hh : payload.head? = some 0
          · simp [h0, hh, kindError]
          · simp [h0, hh]

theorem error_of_kind (c : Call) : c.error = c.kind.map (fun k => kindError k c.input) := by
  cases c with
  | validate s => exact validate_of_kind s
  | parse s => exact parse_of_kind s
  | read fs path => exact read_of_kind fs path

theorem kindError_ne (k1 k2 : FailureKind) (i1 i2 : GoString) (h : sharesError k1 k2 = false) :
    kindError k1 i1 ≠ kindError k2 i2 := by
  intro e
  have hk := congrArg (fun x => x.msg.take 20) e
  revert h hk
  cases k1 <;> cases k2 <;>
    simp only [kindError, errors.New, wrong_suffix_take] <;> decide

theorem kindError_eq (k1 k2 : FailureKind) (i1 i2 : GoString)
    (h : (k1 = .TooFewFields ∧ k2 = .InsufficientFields) ∨
      (k1 = .FileNotFound ∧ k2 = .NotAnElfFile) ∨
      (k1 = .NoTerminator ∧ k2 = .EmptyPayload)) :
    kindError k1 i1 = kindError k2 i2 := by
  rcases h with ⟨rfl, rfl⟩ | ⟨rfl, rfl⟩ | ⟨rfl, rfl⟩ <;> rfl

end helpers

/-! ## Lemmas: `url.Parse` on `scheme://host/path` -/

namespace strings

theorem LastIndexByte_of_not_mem (s : GoString) (c : Nat) (h : c ∉ s) :
    LastIndexByte s c = -1 := by
  induction s with
  | nil => simp [LastIndexByte]
  | cons b bs ih =>
    have hb : b ≠ c := fun e => h (by simp [e])
    have hbs : c ∉ bs := fun e => h (by simp [e])
    simp [LastIndexByte, hb, ih hbs]

theorem HasPrefix_singleton_mem (s : GoString) (c : Nat) (h : HasPrefix s [c] = true) : c ∈ s := by
  cases s with
  | nil => simp [HasPrefix] at h
  | cons b bs =>
    simp [HasPrefix] at h
    simp [h]

end strings

namespace url

theorem getSchemeLoop_scheme (raw cs t : GoString) (i : Nat) (hi : 0 < i)
    (hcs : ∀ b ∈ cs, (97 ≤ b ∧ b ≤ 122) ∨ (65 ≤ b ∧ b ≤ 90) ∨ (48 ≤ b ∧ b ≤ 57) ∨
      b = 43 ∨ b = 45 ∨ b = 46) :
    getSchemeLoop raw i (cs ++ 58 :: t) =
      .ok (raw.take (i + cs.length), raw.drop (i + cs.length + 1)) := by
  induction cs generalizing i with
  | nil =>
    have hi0 : i ≠ 0 := by omega
    simp [getSchemeLoop, hi0]
  | cons b bs ih =>
    have hb := hcs b (by simp)
    have hbs : ∀ x ∈ bs, (97 ≤ x ∧ x ≤ 122) ∨ (65 ≤ x ∧ x ≤ 90) ∨ (48 ≤ x ∧ x ≤ 57) ∨
        x = 43 ∨ x = 45 ∨ x = 46 := fun x hx => hcs x (by simp [hx])
    have hi0 : i ≠ 0 := by omega
    have hrec := ih (i + 1) (by omega) hbs
    have hlen : i + 1 + bs.length = i + (b :: bs).length := by simp; omega
    rw [hlen] at hrec
    simp only [List.cons_append, getSchemeLoop]
    by_cases hl : (97 ≤ b ∧ b ≤ 122) ∨ (65 ≤ b ∧ b ≤ 90)
    · rw [if_pos hl]; exact hrec
    · have hd : (48 ≤ b ∧ b ≤ 57) ∨ b = 43 ∨ b = 45 ∨ b = 46 := by
        rcases hb with h | h | h
        · exact absurd (Or.inl h) hl
        · exact absurd (Or.inr h) hl
        · exact h
      rw [if_neg hl, if_pos hd, if_neg hi0]; exact hrec

end url

namespace helpers

theorem isScheme_spec (s : GoString) (h : isScheme s = true) :
    ∃ c cs, s = c :: cs ∧ ((97 ≤ c ∧ c ≤ 122) ∨ (65 ≤ c ∧ c ≤ 90)) ∧
      ∀ b ∈ cs, (97 ≤ b ∧ b ≤ 122) ∨ (65 ≤ b ∧ b ≤ 90) ∨ (48 ≤ b ∧ b ≤ 57) ∨
        b = 43 ∨ b = 45 ∨ b = 46 := by
  cases s with
  | nil => simp [isScheme] at h
  | cons c cs =>
    simp only [isScheme, Bool.and_eq_true, Bool.or_eq_true, decide_eq_true_eq,
      List.all_eq_true] at h
    refine ⟨c, cs, rfl, h.1, fun b hb => ?_⟩
    have := h.2 b hb
    tauto

theorem drop_length_succ_append (cs t : GoString) (a : Nat) :
    (cs ++ a :: t).drop (cs.length + 1) = t := by
  simp

theorem getScheme_of_scheme (s t : GoString) (h : isScheme s = true) :
    url.getScheme (s ++ 58 :: t) = .ok (s, t) := by
  obtain ⟨c, cs, rfl, hc, hcs⟩ := isScheme_spec s h
  unfold url.getScheme
  simp only [List.cons_append, url.getSchemeLoop, if_pos hc]
  have := url.getSchemeLoop_scheme (c :: (cs ++ 58 :: t)) cs t (0 + 1) (by omega) hcs
  show url.getSchemeLoop (c :: (cs ++ 58 :: t)) (0 + 1) (cs ++ 58 :: t) = _
  rw [this]
  have h1 : 0 + 1 + cs.length = cs.length + 1 := by omega
  rw [h1, List.take_succ_cons, List.take_left, List.drop_succ_cons,
    drop_length_succ_append]

theorem isPlainHost_spec (h : GoString) (hh : isPlainHost h = true) :
    ∀ b ∈ h, (97 ≤ b ∧ b ≤ 122) ∨ (65 ≤ b ∧ b ≤ 90) ∨ (48 ≤ b ∧ b ≤ 57) ∨ b = 45 ∨ b = 46 := by
  simp only [isPlainHost, List.all_eq_true, Bool.or_eq_true, decide_eq_true_eq] at hh
  intro b hb
  have := hh b hb
  tauto

theorem shouldEscape_host_plain (b : Nat)
    (hb : (97 ≤ b ∧ b ≤ 122) ∨ (65 ≤ b ∧ b ≤ 90) ∨ (48 ≤ b ∧ b ≤ 57) ∨ b = 45 ∨ b = 46) :
    url.shouldEscape b .encodeHost = false := by
  rcases hb with h | h | h | h | h
  · simp [url.shouldEscape, h]
  · simp [url.shouldEscape, h]
  · simp [url.shouldEscape, h]
  · subst h; decide
  · subst h; decide

theorem unescapeCheck_host_plain (h : GoString) (n : Nat)
    (hh : ∀ b ∈ h, (97 ≤ b ∧ b ≤ 122) ∨ (65 ≤ b ∧ b ≤ 90) ∨ (48 ≤ b ∧ b ≤ 57) ∨ b = 45 ∨ b = 46) :
    url.unescapeCheck .encodeHost h n false = .ok (n, false) := by
  induction h with
  | nil => simp [url.unescapeCheck]
  | cons b bs ih =>
    have hb := hh b (by simp)
    have hbs := ih (fun x hx => hh x (by simp [hx]))
    have h37 : b ≠ 37 := by omega
    have h43 : b ≠ 43 := by omega
    rw [url.unescapeCheck]
    · simp [shouldEscape_host_plain b hb, hbs]
    all_goals (intros; contradiction)

theorem parseAuthority_plain (h : GoString) (hh : isPlainHost h = true) :
    url.parseAuthority h = .ok (none, h) := by
  have hs := isPlainHost_spec h hh
  have h64 : 64 ∉ h := fun hm => by have := hs 64 hm; omega
  have h58 : 58 ∉ h := fun hm => by have := hs 58 hm; omega
  have h91 : 91 ∉ h := fun hm => by have := hs 91 hm; omega
  have hpre : strings.HasPrefix h [91] = false := by
    cases hp : strings.HasPrefix h [91] with
    | false => rfl
    | true => exact absurd (strings.HasPrefix_singleton_mem h 91 hp) h91
  have hun : url.unescape h .encodeHost = .ok h := by
    simp [url.unescape, unescapeCheck_host_plain h 0 hs]
  have hhost : url.parseHost h = .ok h := by
    simp [url.parseHost, hpre, strings.LastIndexByte_of_not_mem h 58 h58, hun]
  simp [url.parseAuthority, strings.LastIndexByte_of_not_mem h 64 h64, hhost]

end helpers

namespace helpers

theorem str_scheme_sep : str "://" = [58, 47, 47] := by decide

theorem isPlainAbsPath_spec (p : GoString) (h : isPlainAbsPath p = true) :
    (∃ q, p = 47 :: q) ∧ (∀ b ∈ p, 32 ≤ b ∧ b ≠ 127) ∧ 35 ∉ p ∧ 37 ∉ p ∧ 63 ∉ p := by
  simp only [isPlainAbsPath, Bool.and_eq_true, List.all_eq_true, decide_eq_true_eq] at h
  obtain ⟨hpre, hall⟩ := h
  refine ⟨?_, fun b hb => ⟨(hall b hb).1.1, (hall b hb).1.2⟩, ?_, ?_, ?_⟩
  · cases p with
    | nil => simp [strings.HasPrefix] at hpre
    | cons b bs =>
      simp [strings.HasPrefix] at hpre
      exact ⟨bs, by rw [hpre]⟩
  all_goals
    intro hm
    have := (hall _ hm).2
    simp at this

theorem Parse_scheme_host_path (scheme host path : GoString) (hs : isScheme scheme = true)
    (hh : isPlainHost host = true) (hp : isPlainAbsPath path = true) :
    url.Parse (scheme ++ str "://" ++ host ++ path) =
      .ok { Scheme := strings.ToLower scheme, Host := host, Path := path } := by
  obtain ⟨c, cs, hsc, hc, hcs⟩ := isScheme_spec scheme hs
  have hhost := isPlainHost_spec host hh
  obtain ⟨⟨q, hq⟩, hpctl, hp35, hp37, hp63⟩ := isPlainAbsPath_spec path hp
  have hschar : ∀ b ∈ scheme, 43 ≤ b ∧ b ≤ 122 ∧ b ≠ 47 ∧ b ≠ 63 := by
    intro b hb
    rw [hsc] at hb
    rcases List.mem_cons.1 hb with e | e
    · subst e; omega
    · have := hcs b e; omega
  have hhchar : ∀ b ∈ host, 45 ≤ b ∧ b ≤ 122 ∧ b ≠ 47 ∧ b ≠ 63 := by
    intro b hb
    have := hhost b hb; omega
  have hu : scheme ++ str "://" ++ host ++ path = scheme ++ 58 :: (47 :: 47 :: (host ++ path)) := by
    simp [str_scheme_sep]
  rw [hu]
  have hmem : ∀ b ∈ scheme ++ 58 :: (47 :: 47 :: (host ++ path)),
      (32 ≤ b ∧ b ≠ 127) ∧ b ≠ 35 := by
    intro b hb
    simp only [List.mem_append, List.mem_cons] at hb
    rcases hb with hb | rfl | rfl | rfl | hb | hb
    · have := hschar b hb; omega
    · omega
    · omega
    · omega
    · have := hhchar b hb; omega
    · exact ⟨hpctl b hb, fun e => hp35 (e ▸ hb)⟩
  have h35 : 35 ∉ scheme ++ 58 :: (47 :: 47 :: (host ++ path)) := fun hm => (hmem 35 hm).2 rfl
  have hctl := url.stringContainsCTLByte_eq_false _ (fun b hb => (hmem b hb).1)
  have h63 : 63 ∉ (47 :: 47 :: (host ++ path) : GoString) := by
    intro hm
    simp only [List.mem_append, List.mem_cons] at hm
    rcases hm with hm | hm | hm | hm
    · omega
    · omega
    · have := hhchar 63 hm; omega
    · exact hp63 hm
  have h47 : 47 ∉ host := fun hm => by have := hhchar 47 hm; omega
  have hidx : strings.Index (host ++ path) [47] = host.length := by
    rw [hq]; exact strings.Index_singleton_append host q 47 h47
  have hstar : scheme ++ 58 :: (47 :: 47 :: (host ++ path)) ≠ [42] := by
    rw [hsc]; simp
  have hlow : strings.ToLower scheme ≠ [] := by
    rw [hsc]; simp [strings.ToLower]
  have hparse : url.parse (scheme ++ 58 :: (47 :: 47 :: (host ++ path))) false =
      .ok { Scheme := strings.ToLower scheme, Host := host, Path := path } := by
    unfold url.parse
    simp [hctl, hstar, getScheme_of_scheme scheme _ hs, url.splitQuery_of_not_mem _ h63,
      strings.HasPrefix, hlow, hidx, parseAuthority_plain host hh,
      url.unescape_path_of_not_mem path hp37]
  simp [url.Parse, strings.Cut_singleton_of_not_mem _ 35 h35, hparse]

end helpers

/-! ## The claims -/

namespace helpers

/-- C1 fails at `f = app-?.zsync`, a pattern without `|` that ends in `.zsync`:
`url.Parse` cuts it at `?`, the path `app-` does not end in `.zsync`, and the
parser returns the validator's error. It fails in the same way at
`app#1-*.zsync` (fragment), `app:1.0-*.zsync` (`app` is taken as a scheme) and
`app-100%.zsync` (malformed escape). -/
theorem C1_counterexample :
    (124 ∉ str "app-?.zsync" ∧ strings.HasSuffix (str "app-?.zsync") (str ".zsync") = true ∧
      (NewUpdateInformationFromString
        (str "gh-releases-zsync|exampleuser|exampleapp|latest|app-?.zsync")).2 =
        some (errors.New (str ("Update information " ++
          "'gh-releases-zsync|exampleuser|exampleapp|latest|app-?.zsync' " ++
          "does not end in .zsync")))) ∧
    (124 ∉ str "app#1-*.zsync" ∧ strings.HasSuffix (str "app#1-*.zsync") (str ".zsync") = true ∧
      (NewUpdateInformationFromString
        (str "gh-releases-zsync|exampleuser|exampleapp|latest|app#1-*.zsync")).2.isSome = true) ∧
    (124 ∉ str "app:1.0-*.zsync" ∧
      strings.HasSuffix (str "app:1.0-*.zsync") (str ".zsync") = true ∧
      (NewUpdateInformationFromString
        (str "gh-releases-zsync|exampleuser|exampleapp|latest|app:1.0-*.zsync")).2.isSome = true) ∧
    (124 ∉ str "app-100%.zsync" ∧ strings.HasSuffix (str "app-100%.zsync") (str ".zsync") = true ∧
      (NewUpdateInformationFromString
        (str "gh-releases-zsync|exampleuser|exampleapp|latest|app-100%.zsync")).2.isSome = true) := by
  decide

/-- C1, amended: for all strings `o`, `r`, `n`, `f` without `|`,
`NewUpdateInformationFromString` succeeds on `gh-releases-zsync|o|r|n|f` and on
`bintray-zsync|o|r|n|f` exactly when `url.Parse` accepts `f` and the parsed
path ends in `.zsync`; it then returns `username = o`, `repository = r`,
`filename = f` and `releasename = n`, respectively `packagename = n`, every
other field empty, and otherwise it returns an error. In particular it
succeeds for every plain filename pattern `f` ending in `.zsync`: no control
byte, none of `#`, `%`, `:`, `?`, no leading `//`, the wildcard `*` allowed. -/
theorem C1_parse_release_grammar (o r n f : GoString)
    (ho : 124 ∉ o) (hr : 124 ∉ r) (hn : 124 ∉ n) (hf : 124 ∉ f) :
    (isPlainPath f = true → strings.HasSuffix f (str ".zsync") = true → pathEndsInZsync f) ∧
    (pathEndsInZsync f →
      NewUpdateInformationFromString
          (str "gh-releases-zsync" ++ str "|" ++ o ++ str "|" ++ r ++ str "|" ++ n ++ str "|" ++ f) =
        ({ transportmechanism := str "gh-releases-zsync", username := o, repository := r,
           releasename := n, filename := f }, none) ∧
      NewUpdateInformationFromString
          (str "bintray-zsync" ++ str "|" ++ o ++ str "|" ++ r ++ str "|" ++ n ++ str "|" ++ f) =
        ({ transportmechanism := str "bintray-zsync", username := o, repository := r,
           packagename := n, filename := f }, none)) ∧
    (¬ pathEndsInZsync f →
      (∃ e, (NewUpdateInformationFromString
          (str "gh-releases-zsync" ++ str "|" ++ o ++ str "|" ++ r ++ str "|" ++ n ++ str "|" ++ f)).2 =
        some e) ∧
      (∃ e, (NewUpdateInformationFromString
          (str "bintray-zsync" ++ str "|" ++ o ++ str "|" ++ r ++ str "|" ++ n ++ str "|" ++ f)).2 =
        some e)) := by
  have hg := fields_five (str "gh-releases-zsync") o r n f not_mem_gh ho hr hn hf
  have hb := fields_five (str "bintray-zsync") o r n f not_mem_bintray ho hr hn hf
  have hlg : lastField
      (str "gh-releases-zsync" ++ str "|" ++ o ++ str "|" ++ r ++ str "|" ++ n ++ str "|" ++ f) = f := by
    rw [lastField, hg]; rfl
  have hlb : lastField
      (str "bintray-zsync" ++ str "|" ++ o ++ str "|" ++ r ++ str "|" ++ n ++ str "|" ++ f) = f := by
    rw [lastField, hb]; rfl
  refine ⟨pathEndsInZsync_of_plain f, ?_, ?_⟩
  · intro hend
    constructor
    · have hv := (validate_eq_none_iff _).2
        (show 2 ≤ (fields _).length ∧ pathEndsInZsync (lastField _) from
          ⟨by rw [hg]; simp, by rw [hlg]; exact hend⟩)
      rw [new_gh _ hv (by rw [hg]; rfl) (by rw [hg]; simp), hg]
      rfl
    · have hv := (validate_eq_none_iff _).2
        (show 2 ≤ (fields _).length ∧ pathEndsInZsync (lastField _) from
          ⟨by rw [hb]; simp, by rw [hlb]; exact hend⟩)
      rw [new_bintray _ hv (by rw [hb]; rfl) (by rw [hb]; simp), hb]
      rfl
  · intro hnot
    constructor
    · cases hv : ValidateUpdateInformation
          (str "gh-releases-zsync" ++ str "|" ++ o ++ str "|" ++ r ++ str "|" ++ n ++ str "|" ++ f) with
      | some e => exact ⟨e, by rw [new_of_invalid _ e hv]⟩
      | none => exact absurd (hlg ▸ ((validate_eq_none_iff _).1 hv).2) hnot
    · cases hv : ValidateUpdateInformation
          (str "bintray-zsync" ++ str "|" ++ o ++ str "|" ++ r ++ str "|" ++ n ++ str "|" ++ f) with
      | some e => exact ⟨e, by rw [new_of_invalid _ e hv]⟩
      | none => exact absurd (hlb ▸ ((validate_eq_none_iff _).1 hv).2) hnot

/-- C1, amended, at
`gh-releases-zsync|exampleuser|exampleapp|latest|exampleapp-*-x86_64.AppImage.zsync`
and its `bintray-zsync` sibling. -/
theorem C1_parse_release_grammar_witness :
    NewUpdateInformationFromString
        (str "gh-releases-zsync" ++ str "|" ++ str "exampleuser" ++ str "|" ++ str "exampleapp" ++
          str "|" ++ str "latest" ++ str "|" ++ str "exampleapp-*-x86_64.AppImage.zsync") =
      ({ transportmechanism := str "gh-releases-zsync", username := str "exampleuser",
         repository := str "exampleapp", releasename := str "latest",
         filename := str "exampleapp-*-x86_64.AppImage.zsync" }, none) ∧
    NewUpdateInformationFromString
        (str "bintray-zsync" ++ str "|" ++ str "exampleuser" ++ str "|" ++ str "exampleapp" ++
          str "|" ++ str "latest" ++ str "|" ++ str "exampleapp-*-x86_64.AppImage.zsync") =
      ({ transportmechanism := str "bintray-zsync", username := str "exampleuser",
         repository := str "exampleapp", packagename := str "latest",
         filename := str "exampleapp-*-x86_64.AppImage.zsync" }, none) :=
  have h := C1_parse_release_grammar (str "exampleuser") (str "exampleapp") (str "latest")
    (str "exampleapp-*-x86_64.AppImage.zsync") (by decide) (by decide) (by decide) (by decide)
  h.2.1 (h.1 (by decide) (by decide))

/-- C2 fails at `u = https://example.com/get?file=app.zsync`: it has no `|`,
`url.Parse` accepts it and it ends in `.zsync`, but the parsed path is `/get`
and the parser returns the validator's error. -/
theorem C2_counterexample :
    124 ∉ str "https://example.com/get?file=app.zsync" ∧
    strings.HasSuffix (str "https://example.com/get?file=app.zsync") (str ".zsync") = true ∧
    url.Parse (str "https://example.com/get?file=app.zsync") =
      .ok { Scheme := str "https", Host := str "example.com", Path := str "/get",
            RawQuery := str "file=app.zsync" } ∧
    (NewUpdateInformationFromString (str "zsync|https://example.com/get?file=app.zsync")).2 =
      some (errors.New (str ("Update information " ++
        "'zsync|https://example.com/get?file=app.zsync' does not end in .zsync"))) := by
  decide

/-- C2, amended: for every string `u = scheme:rest` without `|` that begins
with an explicit scheme, `NewUpdateInformationFromString` succeeds on
`zsync|u` exactly when `url.Parse` accepts `u` and the parsed path ends in
`.zsync`; it then returns `transportmechanism = "zsync"` and `fileurl = u`,
every other field empty, and otherwise it returns an error. In particular it
succeeds for every `u = scheme://host/path` whose host is made of letters,
digits, `-` and `.` and whose path starts with `/`, has no control byte and
none of `#`, `%`, `?`, and ends in `.zsync`. -/
theorem C2_parse_zsync_grammar (scheme rest : GoString) (hs : isScheme scheme = true)
    (hbar : 124 ∉ rest) :
    (∀ host path : GoString, rest = str "//" ++ host ++ path → isPlainHost host = true →
      isPlainAbsPath path = true → strings.HasSuffix path (str ".zsync") = true →
      pathEndsInZsync (scheme ++ str ":" ++ rest)) ∧
    (pathEndsInZsync (scheme ++ str ":" ++ rest) →
      NewUpdateInformationFromString (str "zsync" ++ str "|" ++ (scheme ++ str ":" ++ rest)) =
        ({ transportmechanism := str "zsync", fileurl := scheme ++ str ":" ++ rest }, none)) ∧
    (¬ pathEndsInZsync (scheme ++ str ":" ++ rest) →
      ∃ e, (NewUpdateInformationFromString
        (str "zsync" ++ str "|" ++ (scheme ++ str ":" ++ rest))).2 = some e) := by
  have hu : 124 ∉ scheme ++ str ":" ++ rest := by
    obtain ⟨c, cs, hsc, hc, hcs⟩ := isScheme_spec scheme hs
    have hcolon : str ":" = [58] := by decide
    rw [hcolon]
    intro hm
    rcases List.mem_append.1 hm with hm | hm
    · rcases List.mem_append.1 hm with hm | hm
      · rw [hsc] at hm
        rcases List.mem_cons.1 hm with e | e
        · omega
        · have := hcs 124 e; omega
      · simp at hm
    · exact hbar hm
  have hfs := fields_two (str "zsync") (scheme ++ str ":" ++ rest) not_mem_zsync hu
  have hl : lastField (str "zsync" ++ str "|" ++ (scheme ++ str ":" ++ rest)) =
      scheme ++ str ":" ++ rest := by
    rw [lastField, hfs]; rfl
  refine ⟨?_, ?_, ?_⟩
  · intro host path hrest hh hp hz
    have hsep : scheme ++ str ":" ++ (str "//" ++ host ++ path) =
        scheme ++ str "://" ++ host ++ path := by
      have h1 : str ":" = [58] := by decide
      have h2 : str "//" = [47, 47] := by decide
      rw [h1, h2, str_scheme_sep]
      simp
    rw [hrest, hsep]
    exact ⟨_, Parse_scheme_host_path scheme host path hs hh hp, hz⟩
  · intro hend
    have hv := (validate_eq_none_iff _).2
      (show 2 ≤ (fields _).length ∧ pathEndsInZsync (lastField _) from
        ⟨by rw [hfs]; simp, by rw [hl]; exact hend⟩)
    rw [new_zsync _ hv (by rw [hfs]; rfl), hfs]
    rfl
  · intro hnot
    cases hv : ValidateUpdateInformation
        (str "zsync" ++ str "|" ++ (scheme ++ str ":" ++ rest)) with
    | some e => exact ⟨e, by rw [new_of_invalid _ e hv]⟩
    | none => exact absurd (hl ▸ ((validate_eq_none_iff _).1 hv).2) hnot

/-- C2, amended, at `zsync|https://example.com/app.zsync`. -/
theorem C2_parse_zsync_grammar_witness :
    NewUpdateInformationFromString
        (str "zsync" ++ str "|" ++ (str "https" ++ str ":" ++ str "//example.com/app.zsync")) =
      ({ transportmechanism := str "zsync",
         fileurl := str "https" ++ str ":" ++ str "//example.com/app.zsync" }, none) :=
  have h := C2_parse_zsync_grammar (str "https") (str "//example.com/app.zsync")
    (by decide) (by decide)
  h.2.1 (h.1 (str "example.com") (str "/app.zsync") (by decide) (by decide) (by decide)
    (by decide))

/-- C3, at the failing input `ftp|example.com/file.zsync`: field 0 is `ftp`,
which is none of the three transport mechanisms, and yet
`ValidateUpdateInformation` returns no error. -/
theorem C3_validate_accepts_unknown_mechanism :
    (fields (str "ftp|example.com/file.zsync")).getD 0 [] = str "ftp" ∧
    str "ftp" ∉ transportMechanisms ∧
    ValidateUpdateInformation (str "ftp|example.com/file.zsync") = none := by
  decide

/-- C4: for every string whose field 0 is none of `zsync`, `gh-releases-zsync`
and `bintray-zsync`, `NewUpdateInformationFromString` returns an error. -/
theorem C4_parse_rejects_unknown_mechanism (s : GoString)
    (hz : (fields s).getD 0 [] ≠ str "zsync")
    (hg : (fields s).getD 0 [] ≠ str "gh-releases-zsync")
    (hb : (fields s).getD 0 [] ≠ str "bintray-zsync") :
    ∃ e, (NewUpdateInformationFromString s).2 = some e := by
  cases hv : ValidateUpdateInformation s with
  | some e => exact ⟨e, by rw [new_of_invalid s e hv]⟩
  | none =>
    unfold fields at hz hg hb
    exact ⟨errors.New (str "The transport mechanism in update information is not yet implemented"),
      by simp only [NewUpdateInformationFromString, hv, hz, hg, hb, if_false]⟩

/-- C4 at `ftp|example.com/file.zsync`, which is rejected. -/
theorem C4_parse_rejects_unknown_mechanism_witness :
    ∃ e, (NewUpdateInformationFromString (str "ftp|example.com/file.zsync")).2 = some e :=
  C4_parse_rejects_unknown_mechanism (str "ftp|example.com/file.zsync")
    (by decide) (by decide) (by decide)


/-- C5 fails at `zsync|foo|bar.zsync`: the parser succeeds with
`transportmechanism = "zsync"` and `fileurl = "foo"`, and the URL path of
`foo` does not end in `.zsync`. -/
theorem C5_counterexample :
    NewUpdateInformationFromString (str "zsync|foo|bar.zsync") =
      ({ transportmechanism := str "zsync", fileurl := str "foo" }, none) ∧
    ¬ pathEndsInZsync (str "foo") :=
  ⟨by decide, not_pathEndsInZsync_of_parse (str "foo") { Path := str "foo" } (by decide) (by decide)⟩

/-- C5, amended: for every successful result of `NewUpdateInformationFromString`
the URL path of the input's last `|`-separated field ends in `.zsync`; so when
the input carries exactly the fields the mechanism uses, the URL path of
`fileurl` (2 fields, `zsync`) or of `filename` (5 fields, `gh-releases-zsync`
or `bintray-zsync`) ends in `.zsync`. -/
theorem C5_target_ends_in_zsync (s : GoString) (ui : UpdateInformation)
    (h : NewUpdateInformationFromString s = (ui, none)) :
    pathEndsInZsync (lastField s) ∧
    (ui.transportmechanism = str "zsync" → (fields s).length = 2 →
      pathEndsInZsync ui.fileurl) ∧
    (ui.transportmechanism = str "gh-releases-zsync" ∨
        ui.transportmechanism = str "bintray-zsync" → (fields s).length = 5 →
      pathEndsInZsync ui.filename) := by
  cases hv : ValidateUpdateInformation s with
  | some e =>
    rw [new_of_invalid s e hv] at h
    simp at h
  | none =>
    have hlast := ((validate_eq_none_iff s).1 hv).2
    refine ⟨hlast, ?_, ?_⟩
    · intro htm hlen
      have h0 : (fields s).getD 0 [] = str "zsync" := by
        rw [← htm, ← new_transportmechanism s ui h]
      rw [new_zsync s hv h0] at h
      simp only [Prod.mk.injEq, and_true] at h
      rw [← h]
      simpa [lastField, hlen] using hlast
    · intro htm hlen
      rcases htm with htm | htm
      · have h0 : (fields s).getD 0 [] = str "gh-releases-zsync" := by
          rw [← htm, ← new_transportmechanism s ui h]
        rw [new_gh s hv h0 (by omega)] at h
        simp only [Prod.mk.injEq, and_true] at h
        rw [← h]
        simpa [lastField, hlen] using hlast
      · have h0 : (fields s).getD 0 [] = str "bintray-zsync" := by
          rw [← htm, ← new_transportmechanism s ui h]
        rw [new_bintray s hv h0 (by omega)] at h
        simp only [Prod.mk.injEq, and_true] at h
        rw [← h]
        simpa [lastField, hlen] using hlast

/-- C5, amended, at `zsync|https://example.com/app.zsync`: two fields, and the
URL path of `fileurl` ends in `.zsync`. -/
theorem C5_target_ends_in_zsync_witness :
    NewUpdateInformationFromString (str "zsync|https://example.com/app.zsync") =
      ({ transportmechanism := str "zsync", fileurl := str "https://example.com/app.zsync" },
        none) ∧
    pathEndsInZsync (lastField (str "zsync|https://example.com/app.zsync")) ∧
    pathEndsInZsync (str "https://example.com/app.zsync") :=
  have h := C5_target_ends_in_zsync (str "zsync|https://example.com/app.zsync")
    { transportmechanism := str "zsync", fileurl := str "https://example.com/app.zsync" }
    (by decide)
  ⟨by decide, h.1, h.2.1 (by decide) (by decide)⟩

/-- C6, at the failing input `zsync|example.com/app.zsync`: field 0 is `zsync`,
the last field parses as a URL with an empty scheme, and yet
`ValidateUpdateInformation` returns no error. -/
theorem C6_validate_accepts_missing_scheme :
    (fields (str "zsync|example.com/app.zsync")).getD 0 [] = str "zsync" ∧
    url.Parse (lastField (str "zsync|example.com/app.zsync")) =
      .ok { Scheme := [], Path := str "example.com/app.zsync" } ∧
    ValidateUpdateInformation (str "zsync|example.com/app.zsync") = none := by
  decide

/-- C7 fails at `zsync|some.zsync?foo=bar`: the last field `some.zsync?foo=bar`
does not end in `.zsync`, and `ValidateUpdateInformation` returns no error. -/
theorem C7_counterexample :
    lastField (str "zsync|some.zsync?foo=bar") = str "some.zsync?foo=bar" ∧
    strings.HasSuffix (str "some.zsync?foo=bar") (str ".zsync") = false ∧
    ValidateUpdateInformation (str "zsync|some.zsync?foo=bar") = none := by
  decide

/-- C7, amended: for every string whose last `|`-separated field does not parse
as a URL whose path ends in `.zsync`, `ValidateUpdateInformation` returns an
error. -/
theorem C7_validate_rejects_other_path (s : GoString) (h : ¬ pathEndsInZsync (lastField s)) :
    ∃ e, ValidateUpdateInformation s = some e := by
  cases hv : ValidateUpdateInformation s with
  | some e => exact ⟨e, rfl⟩
  | none => exact absurd ((validate_eq_none_iff s).1 hv).2 h

/-- C7, amended, at `zsync|https://example.com/app.AppImage`. -/
theorem C7_validate_rejects_other_path_witness :
    ∃ e, ValidateUpdateInformation (str "zsync|https://example.com/app.AppImage") = some e :=
  C7_validate_rejects_other_path (str "zsync|https://example.com/app.AppImage")
    (not_pathEndsInZsync_of_parse _
      { Scheme := str "https", Host := str "example.com", Path := str "/app.AppImage" }
      (by decide) (by decide))

/-- C8: for every string with at least two `|`-separated fields whose last field
is `p?q`, with `p` a plain path ending in `.zsync` and `q` a plain query,
`ValidateUpdateInformation` succeeds: the suffix is checked on the parsed URL
path, not on the raw field. -/
theorem C8_validate_accepts_query (s p q : GoString) (hlen : 2 ≤ (fields s).length)
    (hlast : lastField s = p ++ str "?" ++ q) (hp : isPlainPath p = true)
    (hz : strings.HasSuffix p (str ".zsync") = true) (hq : isPlainQuery q = true) :
    ValidateUpdateInformation s = none := by
  refine (validate_eq_none_iff s).2 ⟨hlen, ?_⟩
  rw [hlast, str_query, List.append_assoc, List.singleton_append]
  exact ⟨_, Parse_plain_query p q hp hq, hz⟩

/-- C8 at `gh-releases-zsync|a|b|latest|some.zsync?foo=bar`. -/
theorem C8_validate_accepts_query_witness :
    ValidateUpdateInformation (str "gh-releases-zsync|a|b|latest|some.zsync?foo=bar") = none :=
  C8_validate_accepts_query (str "gh-releases-zsync|a|b|latest|some.zsync?foo=bar")
    (str "some.zsync") (str "foo=bar") (by decide) (by decide) (by decide) (by decide) (by decide)

/-- C9: for every string without `|` (fewer than 2 fields, the empty string
included), `ValidateUpdateInformation` returns an error, and
`NewUpdateInformationFromString` returns that error with the zero record. -/
theorem C9_too_few_fields (s : GoString) (h : 124 ∉ s) :
    (fields s).length < 2 ∧
    ValidateUpdateInformation s = some (errors.New (str "Update information isn't valid")) ∧
    NewUpdateInformationFromString s =
      ({}, some (errors.New (str "Update information isn't valid"))) := by
  have hf := fields_of_not_mem s h
  have hv : ValidateUpdateInformation s =
      some (errors.New (str "Update information isn't valid")) := by
    unfold fields at hf
    simp [ValidateUpdateInformation, hf]
  exact ⟨by rw [hf]; simp, hv, new_of_invalid s _ hv⟩

/-- C9 at the empty string. -/
theorem C9_too_few_fields_witness :
    (fields []).length < 2 ∧
    ValidateUpdateInformation [] = some (errors.New (str "Update information isn't valid")) ∧
    NewUpdateInformationFromString [] =
      ({}, some (errors.New (str "Update information isn't valid"))) :=
  C9_too_few_fields [] (by decide)

/-- C10: for every input `s`, if `ValidateUpdateInformation s` returns an error
`e`, then `NewUpdateInformationFromString s` returns that error `e` unchanged,
together with the zero-valued record. -/
theorem C10_validation_error_propagates (s : GoString) (e : GoError)
    (h : ValidateUpdateInformation s = some e) :
    NewUpdateInformationFromString s =
      ({ transportmechanism := [], fileurl := [], username := [], repository := [],
         releasename := [], filename := [], packagename := [] }, some e) :=
  new_of_invalid s e h

/-- C10 at `zsync|https://example.com/app.AppImage`, which fails the suffix check. -/
theorem C10_validation_error_propagates_witness :
    NewUpdateInformationFromString (str "zsync|https://example.com/app.AppImage") =
      ({ transportmechanism := [], fileurl := [], username := [], repository := [],
         releasename := [], filename := [], packagename := [] },
       some (errors.New (str "Update information 'zsync|https://example.com/app.AppImage' does not end in .zsync"))) :=
  C10_validation_error_propagates (str "zsync|https://example.com/app.AppImage") _ (by decide)

/-- C11: for every string whose field 0 is `gh-releases-zsync` or
`bintray-zsync` and which has fewer than 5 `|`-separated fields,
`NewUpdateInformationFromString` returns an error. -/
theorem C11_parse_rejects_short_release (s : GoString)
    (h0 : (fields s).getD 0 [] = str "gh-releases-zsync" ∨
      (fields s).getD 0 [] = str "bintray-zsync")
    (hlen : (fields s).length < 5) :
    ∃ e, (NewUpdateInformationFromString s).2 = some e :=
  new_error_of_short s h0 hlen

/-- C11 at `gh-releases-zsync|owner|repo|app.zsync`. -/
theorem C11_parse_rejects_short_release_witness :
    ∃ e, (NewUpdateInformationFromString (str "gh-releases-zsync|owner|repo|app.zsync")).2 =
      some e :=
  C11_parse_rejects_short_release (str "gh-releases-zsync|owner|repo|app.zsync")
    (Or.inl (by decide)) (by decide)

/-- C12: when the payload of the `.upd_info` section has a null byte at an
index `k > 0` and none before `k`, `ReadUpdateInfo` succeeds and returns
exactly the `k` bytes before that null byte; the result is not empty, holds no
null byte, and is the same for every payload that agrees with this one up to
index `k`. -/
theorem C12_read_returns_terminated_string (fs : elf.FileSystem) (path : GoString)
    (payload : List Nat) (k : Nat)
    (hp : updInfoPayload fs path = some payload)
    (hk : 0 < k) (hnull : payload[k]? = some 0) (hbefore : ∀ i, i < k → payload[i]? ≠ some 0) :
    (ReadUpdateInfo fs path).1 = (payload.take k, none) ∧
    payload.take k ≠ [] ∧ 0 ∉ payload.take k ∧
    ∀ (fs2 : elf.FileSystem) (path2 : GoString) (payload2 : List Nat),
      updInfoPayload fs2 path2 = some payload2 → payload2.take (k + 1) = payload.take (k + 1) →
      (ReadUpdateInfo fs2 path2).1 = (ReadUpdateInfo fs path).1 := by
  have key : ∀ (fs1 : elf.FileSystem) (path1 : GoString) (p1 : List Nat),
      updInfoPayload fs1 path1 = some p1 → p1[k]? = some 0 → (∀ i, i < k → p1[i]? ≠ some 0) →
      (ReadUpdateInfo fs1 path1).1 = (p1.take k, none) ∧ p1.take k ≠ [] ∧ 0 ∉ p1.take k := by
    intro fs1 path1 p1 h1 hn hb
    have hlt : k < p1.length := by
      rcases List.getElem?_eq_some_iff.1 hn with ⟨hlt, _⟩
      exact hlt
    have hsplit : p1 = p1.take k ++ 0 :: p1.drop (k + 1) := by
      have hx : p1[k] = 0 := by
        rcases List.getElem?_eq_some_iff.1 hn with ⟨_, hx⟩
        exact hx
      rw [← hx, ← List.drop_eq_getElem_cons hlt, List.take_append_drop]
    have hnotin : 0 ∉ p1.take k := by
      intro hm
      rcases List.getElem_of_mem hm with ⟨i, hi, hget⟩
      have hik : i < k := by
        rw [List.length_take] at hi
        omega
      apply hb i hik
      rw [List.getElem_take] at hget
      rw [List.getElem?_eq_getElem (by omega), hget]
    have hne : p1.take k ≠ [] := by
      intro e
      have := congrArg List.length e
      rw [List.length_take, List.length_nil] at this
      omega
    refine ⟨?_, hne, hnotin⟩
    rw [hsplit] at h1
    exact read_of_terminated fs1 path1 _ _ h1 hne hnotin
  obtain ⟨h1, h2, h3⟩ := key fs path payload hp hnull hbefore
  refine ⟨h1, h2, h3, ?_⟩
  intro fs2 path2 payload2 hp2 hagree
  have hnull2 : payload2[k]? = some 0 := by
    have := congrArg (fun l => l[k]?) hagree
    simp only [List.getElem?_take, Nat.lt_succ_self, if_true] at this
    rw [this, hnull]
  have hbefore2 : ∀ i, i < k → payload2[i]? ≠ some 0 := by
    intro i hi
    have := congrArg (fun l => l[i]?) hagree
    have hi2 : i < k + 1 := by omega
    simp only [List.getElem?_take, hi2, if_true] at this
    rw [this]
    exact hbefore i hi
  have htake : payload2.take k = payload.take k := by
    have := congrArg (List.take k) hagree
    simpa [List.take_take] using this
  rw [(key fs2 path2 payload2 hp2 hnull2 hbefore2).1, h1, htake]

/-- C12 at the payload `zsync|https://example.com/app.zsync\0`, with `k = 35`. -/
theorem C12_read_returns_terminated_string_witness :
    (ReadUpdateInfo (fixture (str "zsync|https://example.com/app.zsync" ++ [0])) (str "app")).1 =
      (str "zsync|https://example.com/app.zsync", none) :=
  (C12_read_returns_terminated_string
    (fixture (str "zsync|https://example.com/app.zsync" ++ [0])) (str "app")
    (str "zsync|https://example.com/app.zsync" ++ [0]) 35
    (by decide) (by decide) (by decide) (by decide)).1.trans (by decide)

/-- C13: given a readable `.upd_info` payload, `ReadUpdateInfo` fails if and
only if the payload holds no null byte or its first byte is null (the empty
payload included); in every other case it succeeds. -/
theorem C13_read_fails_iff (fs : elf.FileSystem) (path : GoString) (payload : List Nat)
    (hp : updInfoPayload fs path = some payload) :
    ((∃ e, (ReadUpdateInfo fs path).1.2 = some e) ↔ (0 ∉ payload ∨ payload.head? = some 0)) ∧
    ((ReadUpdateInfo fs path).1.2 = none ↔ ¬ (0 ∉ payload ∨ payload.head? = some 0)) := by
  have hcond : (bytes.Index payload [0] = -1 ∨ bytes.Index payload [0] = 0) ↔
      (0 ∉ payload ∨ payload.head? = some 0) := by
    unfold bytes.Index
    rw [strings.Index_singleton_eq_neg_one_iff, strings.Index_singleton_eq_zero_iff]
  rw [read_of_payload fs path payload hp, ← hcond]
  by_cases hc : bytes.Index payload [0] = -1 ∨ bytes.Index payload [0] = 0
  · simp [hc]
  · simp [hc]

/-- C13 at the payload `\0A`, whose first byte is null. -/
theorem C13_read_fails_iff_witness :
    ((∃ e, (ReadUpdateInfo (fixture [0, 65]) (str "app")).1.2 = some e) ↔
      (0 ∉ [0, 65] ∨ [0, 65].head? = some 0)) ∧
    ((ReadUpdateInfo (fixture [0, 65]) (str "app")).1.2 = none ↔
      ¬ (0 ∉ [0, 65] ∨ [0, 65].head? = some 0)) :=
  C13_read_fails_iff (fixture [0, 65]) (str "app") [0, 65] (by decide)

/-- C14 fails three times. The payload `AB`, with no null byte, and the payload
`\0`, whose first byte is null, make `ReadUpdateInfo` return one and the same
error; a path with no file and a path whose file is not an ELF file make it
return one and the same error; and the validator's error on `zsync` (too few
fields) is the parser's error on `gh-releases-zsync|owner|repo|app.zsync`
(validated, fewer than 5 fields). -/
theorem C14_counterexample :
    (0 ∉ [65, 66] ∧ [0].head? = some 0 ∧
      (ReadUpdateInfo (fixture [65, 66]) (str "app")).1.2 =
        some (errors.New (str "no update information found")) ∧
      (ReadUpdateInfo (fixture [0]) (str "app")).1.2 =
        some (errors.New (str "no update information found"))) ∧
    ((ReadUpdateInfo { files := fun _ => none, openHandles := 0, notELF := fun _ => false }
        (str "app")).1.2 = some (errors.New (str "file not found")) ∧
      (ReadUpdateInfo { files := fun _ => none, openHandles := 0, notELF := fun _ => true }
        (str "app")).1.2 = some (errors.New (str "file not found"))) ∧
    ((fields (str "zsync")).length < 2 ∧
      ValidateUpdateInformation (str "gh-releases-zsync|owner|repo|app.zsync") = none ∧
      ValidateUpdateInformation (str "zsync") =
        some (errors.New (str "Update information isn't valid")) ∧
      (NewUpdateInformationFromString (str "gh-releases-zsync|owner|repo|app.zsync")).2 =
        some (errors.New (str "Update information isn't valid"))) := by
  decide

/-- C14, amended: every failure is returned to the caller as an error value,
and two calls that fail for different kinds return different errors, except
for three pairs of kinds that are reported by one and the same error: the
validator's `TooFewFields` and the parser's `InsufficientFields`,
`FileNotFound` and `NotAnElfFile`, and `NoTerminator` and `EmptyPayload`. -/
theorem C14_errors_by_kind (c1 c2 : Call) (k1 k2 : FailureKind)
    (h1 : c1.kind = some k1) (h2 : c2.kind = some k2) :
    (∃ e1 e2, c1.error = some e1 ∧ c2.error = some e2) ∧
    (sharesError k1 k2 = false → c1.error ≠ c2.error) ∧
    ((k1 = .TooFewFields ∧ k2 = .InsufficientFields) ∨
        (k1 = .FileNotFound ∧ k2 = .NotAnElfFile) ∨
        (k1 = .NoTerminator ∧ k2 = .EmptyPayload) → c1.error = c2.error) := by
  have e1 : c1.error = some (kindError k1 c1.input) := by rw [error_of_kind, h1]; rfl
  have e2 : c2.error = some (kindError k2 c2.input) := by rw [error_of_kind, h2]; rfl
  refine ⟨⟨_, _, e1, e2⟩, ?_, ?_⟩
  · intro hs he
    rw [e1, e2] at he
    exact kindError_ne k1 k2 _ _ hs (Option.some.inj he)
  · intro hp
    rw [e1, e2, kindError_eq k1 k2 _ _ hp]

/-- C14, amended, at the validator on `zsync|app.txt` (wrong suffix) and the
extractor on a path whose file is not an ELF file: the errors differ. -/
theorem C14_errors_by_kind_witness :
    Call.error (.validate (str "zsync|app.txt")) ≠
      Call.error (.read { files := fun _ => none, openHandles := 0, notELF := fun _ => true }
        (str "app")) :=
  (C14_errors_by_kind (.validate (str "zsync|app.txt"))
    (.read { files := fun _ => none, openHandles := 0, notELF := fun _ => true } (str "app"))
    .WrongSuffix .NotAnElfFile (by decide) (by decide)).2.1 (by decide)

/-- C15: for every ELF file that opens and has no section named exactly
`.upd_info`, `ReadUpdateInfo` returns the empty string and the
section-missing error, whatever the other sections hold. -/
theorem C15_read_section_missing (fs : elf.FileSystem) (path : GoString) (f : elf.File)
    (hf : fs.files path = some f)
    (hno : ∀ sect, sect ∈ f.Sections → sect.Name ≠ str ".upd_info") :
    (ReadUpdateInfo fs path).1 = ([], some (errors.New (str "ELF missing .upd_info section"))) := by
  have hs : f.Section (str ".upd_info") = none := by
    unfold elf.File.Section
    rw [List.find?_eq_none]
    intro sect hm
    simpa using hno sect hm
  rw [read_of_section_missing fs path f hf hs]

/-- C15 at a file whose only section is `.text`, holding a terminated string. -/
theorem C15_read_section_missing_witness :
    (ReadUpdateInfo
      { files := fun _ => some ⟨[⟨str ".text", .ok (str "zsync|a.zsync" ++ [0])⟩]⟩,
        openHandles := 0 }
      (str "app")).1 = ([], some (errors.New (str "ELF missing .upd_info section"))) :=
  C15_read_section_missing _ (str "app") ⟨[⟨str ".text", .ok (str "zsync|a.zsync" ++ [0])⟩]⟩ rfl
    (by
      intro sect hm
      rw [List.mem_singleton] at hm
      subst hm
      decide)

/-- C16 fails on the file whose `.upd_info` payload is
`zsync|https://example.com/app.zsync\0`: no handle is open before the call,
the call succeeds, and one handle is open when it returns. -/
theorem C16_counterexample :
    (fixture (str "zsync|https://example.com/app.zsync" ++ [0])).openHandles = 0 ∧
    (ReadUpdateInfo (fixture (str "zsync|https://example.com/app.zsync" ++ [0])) (str "app")).1 =
      (str "zsync|https://example.com/app.zsync", none) ∧
    (ReadUpdateInfo (fixture (str "zsync|https://example.com/app.zsync" ++ [0]))
      (str "app")).2.openHandles = 1 := by
  decide

/-- C16, amended: `ReadUpdateInfo` never closes the handle it opens. When
`elf.Open` fails, as many handles are open after the call as before it; when
`elf.Open` succeeds, one more handle is open when the call returns, on success
and on every later error path. The files themselves are left as they were. -/
theorem C16_read_handles (fs : elf.FileSystem) (path : GoString) :
    (ReadUpdateInfo fs path).2.files = fs.files ∧
    (fs.files path = none → (ReadUpdateInfo fs path).2.openHandles = fs.openHandles) ∧
    (fs.files path ≠ none → (ReadUpdateInfo fs path).2.openHandles = fs.openHandles + 1) := by
  cases hf : fs.files path with
  | none =>
    rw [read_of_open_failed fs path hf]
    simp
  | some f =>
    cases hs : f.Section (str ".upd_info") with
    | none =>
      rw [read_of_section_missing fs path f hf hs]
      simp
    | some sect =>
      cases hd : sect.Data with
      | error e =>
        rw [read_of_section_unreadable fs path f sect e hf hs hd]
        simp
      | ok payload =>
        have hp : updInfoPayload fs path = some payload := by
          simp [updInfoPayload, hf, hs, hd]
        rw [read_of_payload fs path payload hp]
        simp

/-- C17: for every successful result of `NewUpdateInformationFromString`,
`transportmechanism` is field 0 of the input and the fields the mechanism does
not use are empty: all but `fileurl` for `zsync`, `fileurl` and `packagename`
for `gh-releases-zsync`, `fileurl` and `releasename` for `bintray-zsync`. -/
theorem C17_irrelevant_fields_empty (s : GoString) (ui : UpdateInformation)
    (h : NewUpdateInformationFromString s = (ui, none)) :
    ui.transportmechanism = (fields s).getD 0 [] ∧
    (ui.transportmechanism = str "zsync" →
      ui.username = [] ∧ ui.repository = [] ∧ ui.releasename = [] ∧ ui.filename = [] ∧
        ui.packagename = []) ∧
    (ui.transportmechanism = str "gh-releases-zsync" → ui.fileurl = [] ∧ ui.packagename = []) ∧
    (ui.transportmechanism = str "bintray-zsync" → ui.fileurl = [] ∧ ui.releasename = []) := by
  have hz : str "zsync" ≠ str "gh-releases-zsync" := by decide
  have hb : str "zsync" ≠ str "bintray-zsync" := by decide
  have hgb : str "gh-releases-zsync" ≠ str "bintray-zsync" := by decide
  rcases (new_success s ui h).2 with ⟨h0, rfl⟩ | ⟨h0, _, rfl⟩ | ⟨h0, _, rfl⟩
  · exact ⟨h0.symm, fun _ => ⟨rfl, rfl, rfl, rfl, rfl⟩, fun e => absurd e hz, fun e => absurd e hb⟩
  · exact ⟨h0.symm, fun e => absurd e.symm hz, fun _ => ⟨rfl, rfl⟩, fun e => absurd e hgb⟩
  · exact ⟨h0.symm, fun e => absurd e.symm hb, fun e => absurd e.symm hgb, fun _ => ⟨rfl, rfl⟩⟩

/-- C17 at `bintray-zsync|owner|repo|pkg|app-*.zsync`. -/
theorem C17_irrelevant_fields_empty_witness :
    NewUpdateInformationFromString (str "bintray-zsync|owner|repo|pkg|app-*.zsync") =
      ({ transportmechanism := str "bintray-zsync", username := str "owner",
         repository := str "repo", packagename := str "pkg", filename := str "app-*.zsync" },
        none) ∧
    str "bintray-zsync" = (fields (str "bintray-zsync|owner|repo|pkg|app-*.zsync")).getD 0 [] ∧
    (NewUpdateInformationFromString (str "bintray-zsync|owner|repo|pkg|app-*.zsync")).1.fileurl =
      [] ∧
    (NewUpdateInformationFromString
      (str "bintray-zsync|owner|repo|pkg|app-*.zsync")).1.releasename = [] :=
  have h : NewUpdateInformationFromString (str "bintray-zsync|owner|repo|pkg|app-*.zsync") =
      ({ transportmechanism := str "bintray-zsync", username := str "owner",
         repository := str "repo", packagename := str "pkg", filename := str "app-*.zsync" },
        none) := by decide
  have hc := C17_irrelevant_fields_empty _ _ h
  ⟨h, hc.1, (congrArg (fun r => r.1.fileurl) h).trans (hc.2.2.2 rfl).1,
    (congrArg (fun r => r.1.releasename) h).trans (hc.2.2.2 rfl).2⟩

/-- C18: `ValidateUpdateInformation` never returns the scheme-is-missing
error: the `detectedTm` of the mechanism loop is `bintray-zsync` when field 0
is `gh-releases-zsync` and `gh-releases-zsync` otherwise, so it is never
`zsync` (nor empty) and the scheme check is dead code. -/
theorem C18_scheme_check_dead :
    (∀ s : GoString, ValidateUpdateInformation s ≠ some (errors.New (str
      "Scheme is missing in update information, zsync needs e.,g,. http:// or https://"))) ∧
    (∀ p : GoString, detectTm p =
      if p = str "gh-releases-zsync" then str "bintray-zsync" else str "gh-releases-zsync") ∧
    (∀ p : GoString, detectTm p ≠ str "zsync") := by
  refine ⟨?_, detectTm_eq, detectTm_ne_zsync⟩
  intro s h
  rcases validate_error_cases s _ h with e | e | e
  · exact absurd e (by decide)
  · exact absurd e (by decide)
  · have := congrArg (fun x => x.msg.take 20) e
    simp only [errors.New, wrong_suffix_take] at this
    exact absurd this (by decide)

/-- C19: `ValidateUpdateInformation` does not depend on field 0. It succeeds
if and only if the input has at least two `|`-separated fields and its last
field parses as a URL whose path ends in `.zsync`; two inputs that differ only
in a `|`-free field 0 are both accepted or both rejected; and the
invalid-transport-mechanism error is never returned. -/
theorem C19_validate_characterised :
    (∀ s : GoString, ValidateUpdateInformation s = none ↔
      2 ≤ (fields s).length ∧
        ∃ u, url.Parse (lastField s) = .ok u ∧ strings.HasSuffix u.Path (str ".zsync") = true) ∧
    (∀ a b rest : GoString, 124 ∉ a → 124 ∉ b → (rest = [] ∨ rest.head? = some 124) →
      (ValidateUpdateInformation (a ++ rest) = none ↔
        ValidateUpdateInformation (b ++ rest) = none)) ∧
    (∀ s : GoString, ValidateUpdateInformation s ≠
      some (errors.New (str "Invalid transport mechanism in update information"))) := by
  refine ⟨validate_eq_none_iff, ?_, ?_⟩
  · intro a b rest ha hb hrest
    have key : ∀ c : GoString, 124 ∉ c →
        (fields (c ++ rest)).length = (fields rest).length ∧
        (2 ≤ (fields rest).length → lastField (c ++ rest) = lastField rest) := by
      intro c hc
      rcases hrest with rfl | hh
      · rw [List.append_nil, fields_of_not_mem c hc]
        have : fields [] = [[]] := rfl
        rw [this]
        exact ⟨rfl, fun h2 => absurd h2 (by decide)⟩
      · cases rest with
        | nil => simp at hh
        | cons r rs =>
          simp only [List.head?_cons, Option.some.injEq] at hh
          subst hh
          have h1 : fields (c ++ 124 :: rs) = c :: fields rs :=
            strings.SplitByte_append c rs 124 hc
          have h2 : fields (124 :: rs) = [] :: fields rs :=
            strings.SplitByte_append [] rs 124 (by simp)
          rw [lastField, lastField, h1, h2]
          refine ⟨by simp, fun _ => ?_⟩
          have hne : fields rs ≠ [] := strings.SplitByte_ne_nil rs 124
          cases hfs : fields rs with
          | nil => exact absurd hfs hne
          | cons x xs => simp
    obtain ⟨hla, hfa⟩ := key a ha
    obtain ⟨hlb, hfb⟩ := key b hb
    rw [validate_eq_none_iff, validate_eq_none_iff, hla, hlb]
    constructor
    · rintro ⟨h2, hp⟩
      exact ⟨h2, by rw [hfb h2, ← hfa h2]; exact hp⟩
    · rintro ⟨h2, hp⟩
      exact ⟨h2, by rw [hfa h2, ← hfb h2]; exact hp⟩
  · intro s h
    rcases validate_error_cases s _ h with e | e | e
    · exact absurd e (by decide)
    · exact absurd e (by decide)
    · have := congrArg (fun x => x.msg.take 20) e
      simp only [errors.New, wrong_suffix_take] at this
      exact absurd this (by decide)

/-- C20: `NewUpdateInformationFromString` succeeds if and only if
`ValidateUpdateInformation` succeeds and field 0 is `zsync`, or is
`gh-releases-zsync` or `bintray-zsync` with at least 5 fields. The parser's
own fewer-than-2-fields check in the `zsync` branch is unreachable, since a
validated input has at least 2 fields, while its final unknown-mechanism
branch is reached after a successful validation, as on
`ftp|example.com/file.zsync`. -/
theorem C20_parse_characterised :
    (∀ s : GoString, (NewUpdateInformationFromString s).2 = none ↔
      ValidateUpdateInformation s = none ∧
        ((fields s).getD 0 [] = str "zsync" ∨
          (((fields s).getD 0 [] = str "gh-releases-zsync" ∨
              (fields s).getD 0 [] = str "bintray-zsync") ∧ 5 ≤ (fields s).length))) ∧
    (∀ s : GoString, ValidateUpdateInformation s = none → ¬ (fields s).length < 2) ∧
    (ValidateUpdateInformation (str "ftp|example.com/file.zsync") = none ∧
      NewUpdateInformationFromString (str "ftp|example.com/file.zsync") =
        ({ transportmechanism := str "ftp" }, some (errors.New
          (str "The transport mechanism in update information is not yet implemented")))) := by
  refine ⟨?_, ?_, by decide⟩
  · intro s
    constructor
    · intro h
      have hs : NewUpdateInformationFromString s = ((NewUpdateInformationFromString s).1, none) :=
        Prod.ext rfl h
      obtain ⟨hv, hc⟩ := new_success s _ hs
      refine ⟨hv, ?_⟩
      rcases hc with ⟨h0, _⟩ | ⟨h0, hl, _⟩ | ⟨h0, hl, _⟩
      · exact Or.inl h0
      · exact Or.inr ⟨Or.inl h0, hl⟩
      · exact Or.inr ⟨Or.inr h0, hl⟩
    · rintro ⟨hv, h0 | ⟨h0 | h0, hl⟩⟩
      · rw [new_zsync s hv h0]
      · rw [new_gh s hv h0 hl]
      · rw [new_bintray s hv h0 hl]
  · intro s hv
    have := ((validate_eq_none_iff s).1 hv).1
    omega

end helpers
